import Mathlib

/-!
# rtpmidid: the MIDI wire codec of the RTP-MIDI daemon

A shallow embedding of `src/rtpmidid.cpp`: the decoder `recv_rtpmidi_event`
(running-status MIDI bytes to sequencer events) and the encoder
`alsamidi_to_midiprotocol` (sequencer events to MIDI bytes), over a model of
the cursor based byte buffer `parse_buffer_t`.

Machine integers are natural numbers or integers; a value stored into a
`uint8_t` is reduced modulo 256 at the store.
-/

namespace rtpmidid

/-! ## Byte buffer -/

/-- Errors of the byte buffer: a read past `end` or a write past the capacity. -/
inductive buffer_error
  | Underflow
  | Overflow
  deriving DecidableEq, Repr

/-- Modelled from the spec: `parse_buffer_t` is declared in `netutils.hpp`, which is
not among the sources. Following §3 and §4.1 it is a contiguous span with the three
cursors `start`, `position` and `end`; `data` is the memory from `start` on, and
`position` and `end_` are offsets from `start`. -/
structure parse_buffer_t where
  data : List Nat
  position : Nat
  end_ : Nat
  deriving DecidableEq, Repr

namespace parse_buffer_t

/-- Modelled from the spec: the constructor `parse_buffer_t(start, size)` used by the
callers of the encoder (`uint8_t data[128]; parse_buffer_t stream(data, sizeof(data))`):
the cursor is at `start` and `end` is `start + size`. `mem` is the content of the
array, which the callers leave uninitialised. -/
def init (mem : List Nat) (size : Nat) : parse_buffer_t :=
  { data := mem, position := 0, end_ := size }

/-- A buffer spanning exactly the payload `bytes`, cursor at its first byte: what the
decoder receives. -/
def of_bytes (bytes : List Nat) : parse_buffer_t :=
  init bytes bytes.length

/-- Modelled from the spec: `size()` of §4.1, the capacity `end - start` of the span. -/
def size (b : parse_buffer_t) : Nat :=
  b.end_

/-- Modelled from the spec: `read_u8` of §4.1. A read past `end` is the defined error
`Underflow` and leaves the buffer as it was; otherwise the byte under the cursor is
returned and the cursor advances by one. -/
def read_uint8 (b : parse_buffer_t) : Except buffer_error (Nat × parse_buffer_t) :=
  if b.position + 1 > b.end_ then
    .error .Underflow
  else
    .ok (b.data.getD b.position 0, { b with position := b.position + 1 })

/-- Modelled from the spec: the write symmetric to `read_u8` of §4.1. A write past the
capacity is the defined error `Overflow`; otherwise the argument, converted to
`uint8_t`, is stored under the cursor and the cursor advances by one. -/
def write_uint8 (b : parse_buffer_t) (n : Nat) : Except buffer_error parse_buffer_t :=
  if b.position + 1 > b.end_ then
    .error .Overflow
  else
    .ok { b with data := b.data.set b.position (n % 256), position := b.position + 1 }

/-- The statement `midi_data.position--`: the cursor moves back by one. -/
def step_back (b : parse_buffer_t) : parse_buffer_t :=
  { b with position := b.position - 1 }

/-- The bytes written so far: the memory between `start` and `position`, which the
callers of the encoder send (`stream.end = stream.position; stream.position =
stream.start`). -/
def written (b : parse_buffer_t) : List Nat :=
  b.data.take b.position

end parse_buffer_t

/-! ## Sequencer events -/

/-- The sequencer event `snd_seq_event_t` of the ALSA library, as far as the codec
uses it: the `type` tag together with the view of the `data` union that belongs to
it. `data.note` has `channel`, `note`, `velocity` (unsigned char each);
`data.control` has `channel` (unsigned char), `param` (unsigned int) and `value`
(signed int); `data.ext` is a byte block of `len` bytes. `OTHER` stands for every
event type the encoder has no case for. -/
inductive snd_seq_event_t
  | NOTEON (channel note velocity : Nat)
  | NOTEOFF (channel note velocity : Nat)
  | KEYPRESS (channel note velocity : Nat)
  | CONTROLLER (channel param : Nat) (value : Int)
  | PGMCHANGE (channel : Nat) (value : Int)
  | CHANPRESS (channel : Nat) (value : Int)
  | PITCHBEND (channel : Nat) (value : Int)
  | SENSING
  | SYSEX (data : List Nat)
  | OTHER (type : Nat)
  deriving DecidableEq, Repr

/-- Conversion of a signed `int` to the `uint8_t` parameter of `write_uint8`. -/
def to_uint8 (v : Int) : Nat :=
  (v % 256).toNat

/-! ## The daemon state -/

/-- Modelled from the spec: the client role of §4.5 (`rtpclient.hpp` is not among the
sources), by the arguments it is made from, `rtpclient(name, address, port)`. -/
structure rtpclient where
  name : String
  address : String
  port : Nat
  deriving DecidableEq, Repr

/-- Modelled from the spec: an entry of `known_clients`, the client info
`{name, address, port, use_count, peer?}` of §3 (`rtpmidid.hpp` is not among the
sources); the code builds it as `client_info{name, address, net_port, 0, nullptr}`. -/
structure client_info where
  name : String
  address : String
  port : Nat
  use_count : Int
  peer : Option rtpclient
  deriving DecidableEq, Repr

/-- Modelled from the spec: the server role of §4.6 (`rtpserver.hpp` is not among the
sources), by its name and its control port. -/
structure rtpserver where
  name : String
  control_port : Nat
  deriving DecidableEq, Repr

/-- Modelled from the spec: an entry of `known_servers_connections`,
`{remote_name, peer, owning_server}` of §3 (`rtpmidid.hpp` is not among the sources);
the code builds it as `{peer->remote_name, peer, rtpserver}`. The peer is kept by its
remote name. -/
structure server_conn_info where
  name : String
  peer : String
  server : rtpserver
  deriving DecidableEq, Repr

/-- Modelled from the spec: the address `aseq::port_t` of a sequencer port (`aseq.hpp`
is not among the sources): the sequencer client and the port within it. The
subscriber `from` of the "Network" port is such an address. -/
structure port_t where
  client : Nat
  port : Nat
  deriving DecidableEq, Repr

/-- Modelled from the spec: the local sequencer of §6 (`aseq.hpp` is not among the
sources): the events published with `snd_seq_event_output_direct`, oldest first, each
with the source port set by `snd_seq_ev_set_source`; the id of the daemon's own
sequencer client; and the virtual ports created and not removed, newest first. -/
structure aseq where
  output : List (Nat × snd_seq_event_t)
  client_id : Nat
  ports : List Nat
  deriving DecidableEq, Repr

/-- Modelled from the spec: the daemon `rtpmidid_t` (`rtpmidid.hpp` is not among the
sources): its name, its sequencer, the three registry tables of §3 and the servers
opened at startup. `known_clients` and `known_servers_connections` are maps from a
local virtual port, `alsa_to_server` is a map from the address of a subscriber; a
map is the list of its entries, at most one a key. -/
structure rtpmidid_t where
  name : String
  seq : aseq
  known_clients : List (Nat × client_info)
  known_servers_connections : List (Nat × server_conn_info)
  alsa_to_server : List (port_t × rtpserver)
  servers : List rtpserver
  deriving DecidableEq, Repr

/-- The call `snd_seq_event_output_direct(seq.seq, &ev)` after
`snd_seq_ev_set_source(&ev, port)`: the event is appended to the sequencer output. -/
def rtpmidid_t.event_output_direct (self : rtpmidid_t) (port : Nat)
    (ev : snd_seq_event_t) : rtpmidid_t :=
  { self with seq := { self.seq with output := self.seq.output ++ [(port, ev)] } }

/-! ## Encoder -/

/-- The loop `for (i = 0; i < len; i++) stream.write_uint8(data[i])` of the sysex
case. -/
def write_sysex : List Nat → parse_buffer_t → Except buffer_error parse_buffer_t
  | [], stream => .ok stream
  | d :: ds, stream =>
    match stream.write_uint8 d with
    | .error e => .error e
    | .ok stream => write_sysex ds stream

/-- The encoder `rtpmidid_t::alsamidi_to_midiprotocol(ev, stream)`. The result is the
stream after the writes, or the exception of a write past the capacity. The two
warning branches (sysex larger than the buffer, event type not implemented) return
the stream as it was. The sum `value + 8192` of the pitch-bend case is taken in the
integers: its overflow on a 32-bit `int` is undefined in C++ and not modelled. -/
def alsamidi_to_midiprotocol (ev : snd_seq_event_t) (stream : parse_buffer_t) :
    Except buffer_error parse_buffer_t :=
  match ev with
  | .NOTEON channel note velocity => do
    let stream ← stream.write_uint8 (0x90 ||| (channel &&& 0x0F))
    let stream ← stream.write_uint8 note
    stream.write_uint8 velocity
  | .NOTEOFF channel note velocity => do
    let stream ← stream.write_uint8 (0x80 ||| (channel &&& 0x0F))
    let stream ← stream.write_uint8 note
    stream.write_uint8 velocity
  | .KEYPRESS channel note velocity => do
    let stream ← stream.write_uint8 (0xA0 ||| (channel &&& 0x0F))
    let stream ← stream.write_uint8 note
    stream.write_uint8 velocity
  | .CONTROLLER channel param value => do
    let stream ← stream.write_uint8 (0xB0 ||| (channel &&& 0x0F))
    let stream ← stream.write_uint8 param
    stream.write_uint8 (to_uint8 value)
  | .PGMCHANGE channel value => do
    let stream ← stream.write_uint8 (0xC0 ||| channel)
    stream.write_uint8 (to_uint8 (Int.land value 0x0FF))
  | .CHANPRESS channel value => do
    let stream ← stream.write_uint8 (0xD0 ||| channel)
    stream.write_uint8 (to_uint8 (Int.land value 0x0FF))
  | .PITCHBEND channel value => do
    let stream ← stream.write_uint8 (0xE0 ||| (channel &&& 0x0F))
    let stream ← stream.write_uint8 (to_uint8 (Int.land (value + 8192) 0x07F))
    stream.write_uint8 (to_uint8 (Int.land ((value + 8192) >>> (7 : Nat)) 0x07F))
  | .SENSING =>
    stream.write_uint8 0xFE
  | .SYSEX data =>
    let len := data.length
    let sz := stream.size
    if len ≤ sz then
      write_sysex data stream
    else
      .ok stream
  | .OTHER _ =>
    .ok stream

/-! ## Decoder -/

/-- What one pass through the `switch` of the decoder does. -/
inductive switch_result
  /-- a case built the event `ev` and left the switch by `break` -/
  | deliver (ev : snd_seq_event_t) (midi_data : parse_buffer_t)
  /-- the `default` case: a warning, then `return` -/
  | returned
  /-- a `read_uint8` raised `e` -/
  | threw (e : buffer_error) (midi_data : parse_buffer_t)
  deriving DecidableEq, Repr

/-- One `midi_data.read_uint8()` inside a case of the switch, then the rest of the
case; the exception of the read leaves the switch. -/
def with_uint8 (midi_data : parse_buffer_t)
    (k : Nat → parse_buffer_t → switch_result) : switch_result :=
  match midi_data.read_uint8 with
  | .error e => .threw e midi_data
  | .ok (v, midi_data) => k v midi_data

/-- The `switch(type)` of `recv_rtpmidi_event`, where `type = current_command & 0xF0`.
The arguments of the ALSA setter macros are evaluated in the order written (the
macros expand to comma expressions). -/
def recv_rtpmidi_event_switch (type current_command : Nat) (midi_data : parse_buffer_t) :
    switch_result :=
  if type = 0xB0 then
    with_uint8 midi_data fun param midi_data =>
    with_uint8 midi_data fun value midi_data =>
    .deliver (.CONTROLLER (current_command &&& 0x0F) param value) midi_data
  else if type = 0x90 then
    with_uint8 midi_data fun note midi_data =>
    with_uint8 midi_data fun velocity midi_data =>
    .deliver (.NOTEON (current_command &&& 0x0F) note velocity) midi_data
  else if type = 0x80 then
    with_uint8 midi_data fun note midi_data =>
    with_uint8 midi_data fun velocity midi_data =>
    .deliver (.NOTEOFF (current_command &&& 0x0F) note velocity) midi_data
  else if type = 0xA0 then
    with_uint8 midi_data fun note midi_data =>
    with_uint8 midi_data fun velocity midi_data =>
    .deliver (.KEYPRESS (current_command &&& 0x0F) note velocity) midi_data
  else if type = 0xC0 then
    with_uint8 midi_data fun value midi_data =>
    .deliver (.PGMCHANGE (current_command &&& 0x0F) value) midi_data
  else if type = 0xD0 then
    with_uint8 midi_data fun value midi_data =>
    .deliver (.CHANPRESS (current_command &&& 0x0F) value) midi_data
  else if type = 0xE0 then
    with_uint8 midi_data fun lsb midi_data =>
    with_uint8 midi_data fun msb midi_data =>
    let pitch_bend : Int := (((msb <<< 7) + lsb : Nat) : Int) - 8192
    .deliver (.PITCHBEND (current_command &&& 0x0F) pitch_bend) midi_data
  else if type = 0xFE then
    .deliver .SENSING midi_data
  else
    .returned

/-- How a call of `recv_rtpmidi_event` ends. -/
inductive recv_outcome
  /-- the loop condition `position < end` failed: the payload is consumed -/
  | finished
  /-- the `default` case: warning "MIDI command type not implemented yet", return -/
  | not_implemented (type : Nat)
  /-- a `read_uint8` raised the error, which leaves the function -/
  | exception (e : buffer_error)
  /-- the model ran out of iterations -/
  | out_of_fuel
  deriving DecidableEq, Repr

/-- The daemon and the buffer after a call of `recv_rtpmidi_event`, and how it ended. -/
structure recv_result where
  self : rtpmidid_t
  midi_data : parse_buffer_t
  outcome : recv_outcome
  deriving DecidableEq, Repr

/-- The `while (midi_data.position < midi_data.end)` loop of `recv_rtpmidi_event`,
for at most `fuel` iterations, with the local `current_command`. -/
def recv_rtpmidi_event_loop (port : Nat) :
    Nat → Nat → rtpmidid_t → parse_buffer_t → recv_result
  | 0, _, self, midi_data =>
    ⟨self, midi_data, if midi_data.position < midi_data.end_ then .out_of_fuel else .finished⟩
  | fuel + 1, current_command, self, midi_data =>
    if midi_data.position < midi_data.end_ then
      match midi_data.read_uint8 with
      | .error e => ⟨self, midi_data, .exception e⟩
      | .ok (maybe_next_command, midi_data) =>
        let current_command :=
          if maybe_next_command &&& 0x80 ≠ 0 then maybe_next_command else current_command
        let midi_data :=
          if maybe_next_command &&& 0x80 ≠ 0 then midi_data
          else midi_data.step_back
        let type := current_command &&& 0xF0
        match recv_rtpmidi_event_switch type current_command midi_data with
        | .returned => ⟨self, midi_data, .not_implemented type⟩
        | .threw e midi_data => ⟨self, midi_data, .exception e⟩
        | .deliver ev midi_data =>
          recv_rtpmidi_event_loop port fuel current_command
            (self.event_output_direct port ev) midi_data
    else
      ⟨self, midi_data, .finished⟩

/-- The decoder `rtpmidid_t::recv_rtpmidi_event(port, midi_data)`: `current_command`
starts at 0; every iteration that goes round the loop has consumed at least one
byte, so `end - position` iterations are enough. -/
def recv_rtpmidi_event (self : rtpmidid_t) (port : Nat) (midi_data : parse_buffer_t) :
    recv_result :=
  recv_rtpmidi_event_loop port (midi_data.end_ - midi_data.position) 0 self midi_data

/-- A daemon named `name` whose sequencer has sent nothing and whose registry tables
are empty. -/
def rtpmidid_t.idle (name : String) : rtpmidid_t :=
  { name := name, seq := { output := [], client_id := 128, ports := [] },
    known_clients := [], known_servers_connections := [], alsa_to_server := [],
    servers := [] }

/-! ## The registry -/

/-- The keys of a `std::map`, kept as the list of its entries. -/
def map_keys {κ α : Type} (m : List (κ × α)) : List κ :=
  m.map Prod.fst

/-- The entry `std::map::find` gives for a key, if there is one. -/
def map_find {κ α : Type} [DecidableEq κ] (m : List (κ × α)) (k : κ) : Option α :=
  (m.find? (fun e => e.1 = k)).map Prod.snd

/-- The call `std::map::erase(k)`. -/
def map_erase {κ α : Type} [DecidableEq κ] (m : List (κ × α)) (k : κ) : List (κ × α) :=
  m.filter (fun e => e.1 ≠ k)

/-- The assignment `m[k] = v` on a `std::map`: the entry of `k` is made or replaced. -/
def map_assign {κ α : Type} [DecidableEq κ] (m : List (κ × α)) (k : κ) (v : α) :
    List (κ × α) :=
  (k, v) :: map_erase m k

/-- Modelled from the spec: `seq.create_port(name)`, "create virtual port (returns port
id)" of §6. The id is the choice of the sequencer and comes in as `id`; the port
is in use from now on. -/
def aseq.create_port (seq : aseq) (_name : String) (id : Nat) : aseq :=
  { seq with ports := id :: seq.ports }

/-- Modelled from the spec: `seq.remove_port(port)`, "remove virtual port" of §6: the
port is no longer in use. -/
def aseq.remove_port (seq : aseq) (port : Nat) : aseq :=
  { seq with ports := seq.ports.filter (fun q => q ≠ port) }

/-- The method `rtpmidid_t::add_rtpmidi_client(name, address, net_port)`. `id` is the
port id `seq.create_port` returns if it is called. The result is the daemon
afterwards and the returned `std::optional<uint8_t>`. -/
def rtpmidid_t.add_rtpmidi_client (self : rtpmidid_t) (name address : String)
    (net_port : Nat) (id : Nat) : rtpmidid_t × Option Nat :=
  if self.known_clients.any (fun known => known.2.address = address ∧ known.2.port = net_port)
  then
    (self, none)
  else
    let aseq_port := id
    let seq := self.seq.create_port name id
    let peer_info : client_info :=
      { name := name, address := address, port := net_port, use_count := 0, peer := none }
    ({ self with seq := seq,
                 known_clients := map_assign self.known_clients aseq_port peer_info },
      some aseq_port)

/-- The value `known_clients[aseq_port]` refers to: the entry of the key, or the
default-constructed `client_info` that `operator[]` makes when there is none. -/
def rtpmidid_t.known_client (self : rtpmidid_t) (aseq_port : Nat) : client_info :=
  (map_find self.known_clients aseq_port).getD
    { name := "", address := "", port := 0, use_count := 0, peer := none }

/-- The callback `add_rtpmidi_client` registers with `seq.on_subscribe(aseq_port, ...)`;
`name` is the name of the subscriber. -/
def rtpmidid_t.client_on_subscribe (self : rtpmidid_t) (aseq_port : Nat) (name : String) :
    rtpmidid_t :=
  let peer_info := self.known_client aseq_port
  if peer_info.peer.isNone then
    let peer_info :=
      { peer_info with peer := some ⟨name, peer_info.address, peer_info.port⟩ }
    let peer_info := { peer_info with use_count := peer_info.use_count + 1 }
    { self with known_clients := map_assign self.known_clients aseq_port peer_info }
  else
    self

/-- The callback `add_rtpmidi_client` registers with
`seq.on_unsubscribe(aseq_port, ...)`. -/
def rtpmidid_t.client_on_unsubscribe (self : rtpmidid_t) (aseq_port : Nat) : rtpmidid_t :=
  let peer_info := self.known_client aseq_port
  let peer_info := { peer_info with use_count := peer_info.use_count - 1 }
  let peer_info :=
    if peer_info.use_count ≤ 0 then { peer_info with peer := none } else peer_info
  { self with known_clients := map_assign self.known_clients aseq_port peer_info }

/-- The method `rtpmidid_t::remove_client(port)`. -/
def rtpmidid_t.remove_client (self : rtpmidid_t) (port : Nat) : rtpmidid_t :=
  { self with known_clients := map_erase self.known_clients port }

/-- The method `rtpmidid_t::add_rtpmidid_import_server(name, port)`: the server it
makes and returns. The tables change only in its callbacks. -/
def add_rtpmidid_import_server (name : String) (port : Nat) : rtpserver :=
  { name := name, control_port := port }

/-- The callback `add_rtpmidid_import_server` registers with `rtpserver->on_connected`,
for a peer named `remote_name`; `expired` tells whether the server is gone
(`wrtpserver.expired()`), `id` is the port id `seq.create_port` returns. -/
def rtpmidid_t.import_on_connected (self : rtpmidid_t) (server : rtpserver)
    (expired : Bool) (remote_name : String) (id : Nat) : rtpmidid_t :=
  if expired then
    self
  else
    let aseq_port := id
    let seq := self.seq.create_port remote_name id
    let server_conn : server_conn_info :=
      { name := remote_name, peer := remote_name, server := server }
    { self with seq := seq,
                known_servers_connections :=
                  map_assign self.known_servers_connections aseq_port server_conn }

/-- The callback the connection of port `aseq_port` registers with
`peer->on_disconnect`. -/
def rtpmidid_t.import_on_disconnect (self : rtpmidid_t) (aseq_port : Nat) : rtpmidid_t :=
  { self with seq := self.seq.remove_port aseq_port,
              known_servers_connections :=
                map_erase self.known_servers_connections aseq_port }

/-- The method `rtpmidid_t::add_rtpmidid_export_server(name, alsaport, from)`, as far as
the tables go; `from_` is the address of the subscriber. -/
def rtpmidid_t.add_rtpmidid_export_server (self : rtpmidid_t) (name : String)
    (_alsaport : Nat) (from_ : port_t) : rtpmidid_t × rtpserver :=
  let server : rtpserver := { name := name, control_port := 0 }
  ({ self with alsa_to_server := map_assign self.alsa_to_server from_ server }, server)

/-- The callback `setup_alsa_seq` registers with `seq.on_subscribe` on the "Network"
port `alsaport`. -/
def rtpmidid_t.network_on_subscribe (self : rtpmidid_t) (alsaport : Nat) (from_ : port_t)
    (name : String) : rtpmidid_t :=
  (self.add_rtpmidid_export_server (self.name ++ "/" ++ name) alsaport from_).1

/-- The callback `add_rtpmidid_export_server` registers with `seq.on_unsubscribe`. -/
def rtpmidid_t.export_on_unsubscribe (self : rtpmidid_t) (from_ : port_t) : rtpmidid_t :=
  { self with alsa_to_server := map_erase self.alsa_to_server from_ }

/-- What can happen to the registry: a call of `add_rtpmidi_client` or `remove_client`,
or one of the callbacks of the import servers and of the export servers. -/
inductive registry_event
  | add_client (name address : String) (net_port : Nat) (id : Nat)
  | remove_client (port : Nat)
  | connected (server : rtpserver) (remote_name : String) (id : Nat)
  | disconnect (aseq_port : Nat)
  | subscribe (alsaport : Nat) (from_ : port_t) (name : String)
  | unsubscribe (from_ : port_t)
  deriving DecidableEq, Repr

/-- The daemon after an event. -/
def rtpmidid_t.handle (self : rtpmidid_t) : registry_event → rtpmidid_t
  | .add_client name address net_port id =>
    (self.add_rtpmidi_client name address net_port id).1
  | .remove_client port => self.remove_client port
  | .connected server remote_name id => self.import_on_connected server false remote_name id
  | .disconnect aseq_port => self.import_on_disconnect aseq_port
  | .subscribe alsaport from_ name => self.network_on_subscribe alsaport from_ name
  | .unsubscribe from_ => self.export_on_unsubscribe from_

/-- The behaviour of the collaborators an event relies on. The sequencer's `create_port`
never returns a port id that is currently in use. Modelled from the spec: a peer
"calls on-close exactly once" (§3), so the disconnect callback of a connection runs
only while its port is a key of `known_servers_connections`. -/
def rtpmidid_t.allows (self : rtpmidid_t) : registry_event → Prop
  | .add_client _ _ _ id => id ∉ self.seq.ports
  | .connected _ _ id => id ∉ self.seq.ports
  | .disconnect aseq_port => aseq_port ∈ map_keys self.known_servers_connections
  | _ => True

/-- The subscriber of the event, if it has one, is a port of another sequencer client
than the daemon's own. -/
def rtpmidid_t.foreign_subscriber (self : rtpmidid_t) : registry_event → Prop
  | .subscribe _ from_ _ => from_.client ≠ self.seq.client_id
  | _ => True

/-- The daemon after a sequence of events. -/
def rtpmidid_t.run (self : rtpmidid_t) (events : List registry_event) : rtpmidid_t :=
  events.foldl rtpmidid_t.handle self

/-- Every event of the sequence meets `P` in the state it happens in. -/
def rtpmidid_t.all_along (P : rtpmidid_t → registry_event → Prop) :
    rtpmidid_t → List registry_event → Prop
  | _, [] => True
  | self, ev :: events => P self ev ∧ rtpmidid_t.all_along P (self.handle ev) events

/-- The number of registry tables that have the local virtual port `p` as a key; in
`alsa_to_server` the key is the address of `p` in the daemon's own client. -/
def rtpmidid_t.tables_with (self : rtpmidid_t) (p : Nat) : Nat :=
  (if p ∈ map_keys self.known_clients then 1 else 0)
    + (if p ∈ map_keys self.known_servers_connections then 1 else 0)
    + (if (⟨self.seq.client_id, p⟩ : port_t) ∈ map_keys self.alsa_to_server then 1 else 0)

/-! ## Startup -/

deriving instance DecidableEq for Except


/-- Modelled from the spec: `split(str, delim)` is declared in `stringpp.hpp` and
defined in a file that is not among the sources. The fields of `str` between the
occurrences of `delim`, as the forms `host`, `name:host`, `name:host:port` of §6
are read. -/
def split_chars (delim : Char) : List Char → List (List Char)
  | [] => [[]]
  | c :: cs =>
    if c = delim then
      [] :: split_chars delim cs
    else
      match split_chars delim cs with
      | [] => [[c]]
      | field :: fields => (c :: field) :: fields

/-- Modelled from the spec: `rtpmidid::split(str, delim)` on strings. -/
def split (str : String) (delim : Char) : List String :=
  (split_chars delim str.data).map String.mk

/-- The exceptions that end the constructor of the daemon. -/
inductive startup_exception
  /-- `throw exception("Invalid remote address to connect to.")` -/
  | invalid_remote_address
  /-- `std::invalid_argument` of `std::stoi`: no conversion could be done -/
  | stoi_invalid_argument
  /-- `std::out_of_range` of `std::stoi`: the value does not fit an `int` -/
  | stoi_out_of_range
  deriving DecidableEq, Repr

/-- The white space `std::stoi` skips: space, and the characters 9 to 13. -/
def is_space (c : Char) : Bool :=
  c = ' ' || (9 ≤ c.toNat && c.toNat ≤ 13)

/-- The value of a run of decimal digits. -/
def digits_value (digits : List Char) : Nat :=
  digits.foldl (fun acc c => 10 * acc + (c.toNat - 48)) 0

/-- The C++ library function `std::stoi(str)` in base 10: white space is skipped, a
sign may follow, then the longest run of decimal digits is converted and what
comes after it is ignored. -/
def stoi (str : String) : Except startup_exception Int :=
  let s := str.data.dropWhile is_space
  let negative := s.head? = some '-'
  let s := if s.head? = some '-' ∨ s.head? = some '+' then s.tail else s
  let digits := s.takeWhile Char.isDigit
  if digits = [] then
    .error .stoi_invalid_argument
  else
    let v : Int := if negative then -(digits_value digits : Int) else digits_value digits
    if v < -2147483648 ∨ 2147483647 < v then .error .stoi_out_of_range else .ok v

/-- Conversion of an `int` to the `uint16_t` parameter `net_port`. -/
def to_uint16 (v : Int) : Nat :=
  (v % 65536).toNat

/-- Modelled from the spec: the configuration of §6 (`config.hpp` is not among the
sources): the daemon name, the server ports to open at startup and the connect-to
targets. -/
structure config_t where
  name : String
  ports : List Nat
  connect_to : List String
  deriving DecidableEq, Repr

/-- The body of the loop `for (auto &connect_to: config->connect_to)` of the
constructor; `id` is the port id `seq.create_port` returns if it is called. -/
def rtpmidid_t.connect_to_target (self : rtpmidid_t) (connect_to : String) (id : Nat) :
    Except startup_exception rtpmidid_t :=
  match split connect_to ':' with
  | [s0] =>
    .ok (self.add_rtpmidi_client s0 s0 5004 id).1
  | [s0, s1] =>
    match stoi s1 with
    | .error e => .error e
    | .ok port => .ok (self.add_rtpmidi_client s0 s0 (to_uint16 port) id).1
  | [s0, s1, s2] =>
    match stoi s2 with
    | .error e => .error e
    | .ok port => .ok (self.add_rtpmidi_client s0 s1 (to_uint16 port) id).1
  | _ =>
    .error .invalid_remote_address

/-- The loop `for (auto &connect_to: config->connect_to)` of the constructor;
`create_port_id` tells the port id `seq.create_port` returns in a state of the
daemon. -/
def rtpmidid_t.connect_to_all (create_port_id : rtpmidid_t → Nat) :
    rtpmidid_t → List String → Except startup_exception rtpmidid_t
  | self, [] => .ok self
  | self, connect_to :: rest =>
    match self.connect_to_target connect_to (create_port_id self) with
    | .error e => .error e
    | .ok self => rtpmidid_t.connect_to_all create_port_id self rest

/-- The constructor `rtpmidid_t::rtpmidid_t(config)`: the "Network" port of
`setup_alsa_seq`, a server for every port of the configuration, then the connect-to
targets. `client_id` is the id of the sequencer client the daemon opens. -/
def rtpmidid_t.construct (config : config_t) (client_id : Nat)
    (create_port_id : rtpmidid_t → Nat) : Except startup_exception rtpmidid_t :=
  let self : rtpmidid_t :=
    { name := config.name, seq := { output := [], client_id := client_id, ports := [] },
      known_clients := [], known_servers_connections := [], alsa_to_server := [],
      servers := [] }
  let self := { self with seq := self.seq.create_port "Network" (create_port_id self) }
  let self :=
    { self with servers := config.ports.map (add_rtpmidid_import_server config.name) }
  rtpmidid_t.connect_to_all create_port_id self config.connect_to

/-- A port field that is a decimal numeral fitting an `int`: not empty, digits only,
at most 2147483647. -/
def numeric_port (p : String) : Prop :=
  p.data ≠ [] ∧ (∀ c ∈ p.data, c.isDigit = true) ∧ digits_value p.data ≤ 2147483647

/-! ## AppleMIDI commands -/

/-- The enumeration `rtppeer::commands_e`. -/
inductive commands_e
  | IN
  | OK
  | NO
  | BY
  | CK
  | RS
  deriving DecidableEq, Repr

/-- The value of an enumerator of `rtppeer::commands_e`. -/
def commands_e.value : commands_e → Nat
  | .IN => 0x494e
  | .OK => 0x4f4b
  | .NO => 0x4e4f
  | .BY => 0x4259
  | .CK => 0x434b
  | .RS => 0x5253

/-- The two letters of the name of an enumerator. -/
def commands_e.letters : commands_e → Char × Char
  | .IN => ('I', 'N')
  | .OK => ('O', 'K')
  | .NO => ('N', 'O')
  | .BY => ('B', 'Y')
  | .CK => ('C', 'K')
  | .RS => ('R', 'S')

/-! ## String helpers -/

/-- What a string test returns: a truth value, or nothing defined because it reads
a character outside the string it was given. -/
inductive string_test
  | value (b : Bool)
  | out_of_bounds
  deriving DecidableEq, Repr

/-- The function `std::startswith(str, maybe_start)` of `stringpp.hpp`. -/
def startswith (str maybe_start : String) : string_test :=
  if str.length < maybe_start.length then
    .value false
  else
    .value (decide (maybe_start.data = str.data.take maybe_start.length))

/-- The function `std::endswith(str, maybe_end)` of `stringpp.hpp`. `pos` is a `size_t`:
the difference of the lengths is taken modulo 2^64, so the test `pos < 0` is a test
on a natural number. `std::equal(begin(str) + pos, end(str), begin(maybe_end))`
compares the characters of `str` from offset `pos` on with those of `maybe_end`;
an offset beyond the length of `str` is outside the string. -/
def endswith (str maybe_end : String) : string_test :=
  let pos := (str.length + 2 ^ 64 - maybe_end.length) % 2 ^ 64
  if pos < 0 then
    .value false
  else if pos ≤ str.length then
    .value (decide (str.data.drop pos = maybe_end.data.take (str.length - pos)))
  else
    .out_of_bounds

/-! ## The vocabulary of the specification -/

/-- A MIDI message on the wire: a status byte and the data bytes after it. -/
structure midi_message where
  status : Nat
  data : List Nat
  deriving DecidableEq, Repr

/-- The bytes of a message, status first. -/
def midi_message.bytes (m : midi_message) : List Nat :=
  m.status :: m.data

/-- Follows the spec's words (§4.2, step 2): the number of data bytes a channel-voice
status requires; one for `0xCn` and `0xDn`, two for the others. -/
def data_size (status : Nat) : Nat :=
  if status / 16 = 0xC ∨ status / 16 = 0xD then 1 else 2

/-- Follows the spec's words (§4.2, step 2): the event a channel-voice status and its
data bytes stand for, by upper nibble; the channel is the lower nibble and the
pitch-bend value is `((msb<<7)|lsb) − 8192`. -/
def spec_event (status : Nat) (data : List Nat) : snd_seq_event_t :=
  let channel := status % 16
  let d0 := data.getD 0 0
  let d1 := data.getD 1 0
  if status / 16 = 0x8 then .NOTEOFF channel d0 d1
  else if status / 16 = 0x9 then .NOTEON channel d0 d1
  else if status / 16 = 0xA then .KEYPRESS channel d0 d1
  else if status / 16 = 0xB then .CONTROLLER channel d0 d1
  else if status / 16 = 0xC then .PGMCHANGE channel d0
  else if status / 16 = 0xD then .CHANPRESS channel d0
  else if status / 16 = 0xE then .PITCHBEND channel ((((d1 <<< 7) ||| d0 : Nat) : Int) - 8192)
  else .OTHER status

/-- A group of data bytes fit for the status: as many as it requires, each below
`0x80`. -/
def data_group_for (status : Nat) (data : List Nat) : Prop :=
  data.length = data_size status ∧ ∀ b ∈ data, b < 0x80

/-- A complete channel-voice message: a status byte in `0x80..0xEF` followed by the
data bytes its type requires, each below `0x80`. -/
def midi_message.channel_voice (m : midi_message) : Prop :=
  0x80 ≤ m.status ∧ m.status ≤ 0xEF ∧ data_group_for m.status m.data

/-- The event of a message. -/
def midi_message.event (m : midi_message) : snd_seq_event_t :=
  spec_event m.status m.data

/-- The bytes of a sequence of messages, one after the other. -/
def wire (p : List midi_message) : List Nat :=
  (p.map midi_message.bytes).flatten

/-- A channel-voice event with the channel in `0..15`, the data bytes in `0..127` and
the pitch-bend value in `-8192..8191` (§3). -/
def channel_voice_in_range : snd_seq_event_t → Prop
  | .NOTEON channel note velocity => channel < 16 ∧ note < 128 ∧ velocity < 128
  | .NOTEOFF channel note velocity => channel < 16 ∧ note < 128 ∧ velocity < 128
  | .KEYPRESS channel note velocity => channel < 16 ∧ note < 128 ∧ velocity < 128
  | .CONTROLLER channel param value => channel < 16 ∧ param < 128 ∧ 0 ≤ value ∧ value < 128
  | .PGMCHANGE channel value => channel < 16 ∧ 0 ≤ value ∧ value < 128
  | .CHANPRESS channel value => channel < 16 ∧ 0 ≤ value ∧ value < 128
  | .PITCHBEND channel value => channel < 16 ∧ -8192 ≤ value ∧ value ≤ 8191
  | _ => False

/-- A channel-voice event with the channel in `0..15` whose data fields are bytes
(`0..255`); the pitch-bend value is any integer. -/
def channel_voice_bytes : snd_seq_event_t → Prop
  | .NOTEON channel note velocity => channel < 16 ∧ note < 256 ∧ velocity < 256
  | .NOTEOFF channel note velocity => channel < 16 ∧ note < 256 ∧ velocity < 256
  | .KEYPRESS channel note velocity => channel < 16 ∧ note < 256 ∧ velocity < 256
  | .CONTROLLER channel param value => channel < 16 ∧ param < 256 ∧ 0 ≤ value ∧ value < 256
  | .PGMCHANGE channel value => channel < 16 ∧ 0 ≤ value ∧ value < 256
  | .CHANPRESS channel value => channel < 16 ∧ 0 ≤ value ∧ value < 256
  | .PITCHBEND channel _ => channel < 16
  | _ => False

/-- The bytes the byte-exact encoding law lists for a channel-voice event: the status
byte `type nibble | channel`, then the data bytes. -/
def listed_bytes : snd_seq_event_t → List Int
  | .NOTEOFF channel note velocity => [((0x80 ||| channel : Nat) : Int), note, velocity]
  | .NOTEON channel note velocity => [((0x90 ||| channel : Nat) : Int), note, velocity]
  | .KEYPRESS channel note pressure => [((0xA0 ||| channel : Nat) : Int), note, pressure]
  | .CONTROLLER channel controller value => [((0xB0 ||| channel : Nat) : Int), controller, value]
  | .PITCHBEND channel v =>
    [((0xE0 ||| channel : Nat) : Int), Int.land (v + 8192) 0x7F, Int.land ((v + 8192) >>> (7 : Nat)) 0x7F]
  | .PGMCHANGE channel program => [((0xC0 ||| channel : Nat) : Int), program]
  | .CHANPRESS channel pressure => [((0xD0 ||| channel : Nat) : Int), pressure]
  | _ => []

/-- The wire message of a channel-voice event: the status byte is the type nibble
plus the channel, the data bytes are the fields; the pitch-bend value is re-biased by
8192 and split into its low and high seven bits. -/
def event_message : snd_seq_event_t → midi_message
  | .NOTEOFF channel note velocity => ⟨0x80 + channel, [note, velocity]⟩
  | .NOTEON channel note velocity => ⟨0x90 + channel, [note, velocity]⟩
  | .KEYPRESS channel note velocity => ⟨0xA0 + channel, [note, velocity]⟩
  | .CONTROLLER channel param value => ⟨0xB0 + channel, [param, value.toNat]⟩
  | .PGMCHANGE channel value => ⟨0xC0 + channel, [value.toNat]⟩
  | .CHANPRESS channel value => ⟨0xD0 + channel, [value.toNat]⟩
  | .PITCHBEND channel value =>
    ⟨0xE0 + channel, [((value + 8192) % 128).toNat, ((value + 8192) / 128 % 128).toNat]⟩
  | _ => ⟨0, []⟩

/-- The daemon after the events `events` went, in this order, to the sequencer from
the port `port`. -/
def delivered (self : rtpmidid_t) (port : Nat) (events : List snd_seq_event_t) : rtpmidid_t :=
  events.foldl (fun d ev => d.event_output_direct port ev) self

/-- What a pass through the switch that starts with the buffer `midi_data` may end in,
for the loop to finish: the `default` return, the `Underflow` error, or an event
with the cursor strictly further and not beyond `end`. -/
def makes_progress (midi_data : parse_buffer_t) : switch_result → Prop
  | .returned => True
  | .threw e _ => e = .Underflow
  | .deliver _ after =>
    midi_data.position < after.position ∧ after.position ≤ midi_data.end_ ∧
      after.end_ = midi_data.end_

/-- The status byte of a well-formed MIDI message for the event: the upper nibble of
its type and the channel modulo 16 as lower nibble. -/
def status_byte_of : snd_seq_event_t → Nat
  | .NOTEOFF channel _ _ => 0x80 + channel % 16
  | .NOTEON channel _ _ => 0x90 + channel % 16
  | .KEYPRESS channel _ _ => 0xA0 + channel % 16
  | .CONTROLLER channel _ _ => 0xB0 + channel % 16
  | .PGMCHANGE channel _ => 0xC0 + channel % 16
  | .CHANPRESS channel _ => 0xD0 + channel % 16
  | .PITCHBEND channel _ => 0xE0 + channel % 16
  | _ => 0

/-- The data fields of a channel-voice event as `uint8_t`, that is modulo 256; for a
pitch bend the low and the high seven bits of the value re-biased by 8192. -/
def data_bytes_of : snd_seq_event_t → List Nat
  | .NOTEOFF _ note velocity => [note % 256, velocity % 256]
  | .NOTEON _ note velocity => [note % 256, velocity % 256]
  | .KEYPRESS _ note velocity => [note % 256, velocity % 256]
  | .CONTROLLER _ param value => [param % 256, to_uint8 value]
  | .PGMCHANGE _ value => [to_uint8 value]
  | .CHANPRESS _ value => [to_uint8 value]
  | .PITCHBEND _ value =>
    [((value + 8192) % 128).toNat, ((value + 8192) / 128 % 128).toNat]
  | _ => []

/-- A channel-voice event with field values of any size, the channel of a program
change or channel pressure apart, which is in `0..15`. -/
def channel_voice_any : snd_seq_event_t → Prop
  | .NOTEOFF _ _ _ => True
  | .NOTEON _ _ _ => True
  | .KEYPRESS _ _ _ => True
  | .CONTROLLER _ _ _ => True
  | .PGMCHANGE channel _ => channel < 16
  | .CHANPRESS channel _ => channel < 16
  | .PITCHBEND _ _ => True
  | _ => False

/-- The buffer whose memory is `pre ++ rest`, with the cursor after `pre` and `end` at
offset `end_`. -/
def span (pre rest : List Nat) (end_ : Nat) : parse_buffer_t :=
  { data := pre ++ rest, position := pre.length, end_ := end_ }

/-! ## Bit operations on bytes -/

set_option maxRecDepth 100000 in
theorem byte_and_F0 : ∀ s, s < 256 → s &&& 0xF0 = s / 16 * 16 := by decide

set_option maxRecDepth 100000 in
theorem byte_and_0F : ∀ s, s < 256 → s &&& 0x0F = s % 16 := by decide

set_option maxRecDepth 100000 in
theorem byte_and_80 : ∀ s, s < 256 → (s &&& 0x80 ≠ 0 ↔ 128 ≤ s) := by decide

theorem nibble_and_0F : ∀ c, c < 16 → c &&& 0x0F = c := by decide

theorem nibble_or : ∀ t, t < 16 → ∀ c, c < 16 → (t * 16) ||| c = t * 16 + c := by decide

theorem ldiff_mask (k m : Nat) : Nat.ldiff (2 ^ k - 1) m = 2 ^ k - 1 - m % 2 ^ k := by
  have h2 : m % 2 ^ k < 2 ^ k := Nat.mod_lt _ (by positivity)
  apply Nat.eq_of_testBit_eq
  intro i
  have e : 2 ^ k - 1 - m % 2 ^ k = 2 ^ k - (m % 2 ^ k + 1) := by omega
  rw [Nat.testBit_ldiff, e, Nat.testBit_two_pow_sub_succ h2, Nat.testBit_two_pow_sub_one,
    Nat.testBit_mod_two_pow]
  by_cases h : i < k <;> simp [h]

/-- On two's-complement integers, `x & (2^k - 1)` is the remainder of `x` modulo `2^k`. -/
theorem int_land_mask (k : Nat) (x : Int) :
    Int.land x ((2 ^ k - 1 : Nat) : Int) = x % 2 ^ k := by
  cases x with
  | ofNat n =>
    show ((n &&& (2 ^ k - 1) : Nat) : Int) = _
    rw [Nat.and_pow_two_sub_one_eq_mod]; simp
  | negSucc m =>
    show ((Nat.ldiff (2 ^ k - 1) m : Nat) : Int) = _
    rw [ldiff_mask]
    have h2 : m % 2 ^ k < 2 ^ k := Nat.mod_lt _ (by positivity)
    have h4 : m % 2 ^ k + 2 ^ k * (m / 2 ^ k) = m := Nat.mod_add_div m (2 ^ k)
    generalize m % 2 ^ k = r at h2 h4
    generalize m / 2 ^ k = q at h4
    subst h4
    have e1 : ((2 ^ k - 1 - r : Nat) : Int) = 2 ^ k - 1 - (r : Int) := by
      have : 1 + r ≤ 2 ^ k := by omega
      rw [Nat.sub_sub, Nat.cast_sub this]; push_cast; ring
    have h3 : ((r : Int)) < 2 ^ k := by exact_mod_cast h2
    have hm : (Int.negSucc (r + 2 ^ k * q))
        = (2 ^ k - 1 - (r : Int)) + 2 ^ k * (-(q : Int) - 1) := by
      rw [Int.negSucc_eq]; push_cast; ring
    rw [e1, hm, Int.add_mul_emod_self_left, Int.emod_eq_of_lt] <;> omega

theorem int_land_7F (x : Int) : Int.land x 0x7F = x % 128 := int_land_mask 7 x

theorem int_land_FF (x : Int) : Int.land x 0xFF = x % 256 := int_land_mask 8 x

theorem to_uint8_of_byte (v : Int) (h0 : 0 ≤ v) (h1 : v < 256) : (to_uint8 v : Int) = v := by
  unfold to_uint8
  rw [Int.emod_eq_of_lt h0 h1, Int.toNat_of_nonneg h0]

/-! ## Reading and writing through the cursor -/

theorem init_eq_span (mem : List Nat) (size : Nat) :
    parse_buffer_t.init mem size = span [] mem size := rfl

theorem written_span (pre rest : List Nat) (N : Nat) :
    (span pre rest N).written = pre := by
  simp [span, parse_buffer_t.written]

theorem write_span (pre rest : List Nat) (m n N : Nat) (h : pre.length < N) :
    (span pre (m :: rest) N).write_uint8 n = .ok (span (pre ++ [n % 256]) rest N) := by
  have h1 : ¬ (pre.length + 1 > N) := by omega
  simp [span, parse_buffer_t.write_uint8, h1]

theorem write_span_full (pre rest : List Nat) (n N : Nat) (h : N ≤ pre.length) :
    (span pre rest N).write_uint8 n = .error .Overflow := by
  have h1 : pre.length + 1 > N := by omega
  simp [span, parse_buffer_t.write_uint8, h1]

theorem read_span (pre rest : List Nat) (x N : Nat) (h : pre.length < N) :
    (span pre (x :: rest) N).read_uint8 = .ok (x, span (pre ++ [x]) rest N) := by
  have h1 : ¬ (pre.length + 1 > N) := by omega
  have h2 : (pre ++ x :: rest).getD pre.length 0 = x := by
    rw [List.getD_eq_getElem?_getD, List.getElem?_append_right (le_refl _)]
    simp
  simp only [span, parse_buffer_t.read_uint8, h1, if_false, h2]
  simp

theorem read_span_end (pre rest : List Nat) (N : Nat) (h : N ≤ pre.length) :
    (span pre rest N).read_uint8 = .error .Underflow := by
  have h1 : pre.length + 1 > N := by omega
  simp [span, parse_buffer_t.read_uint8, h1]

theorem step_back_span (pre rest : List Nat) (x N : Nat) :
    (span (pre ++ [x]) rest N).step_back = span pre (x :: rest) N := by
  simp [span, parse_buffer_t.step_back]

/-! ## What the encoder writes -/

theorem exists_cons_of_length {mem : List Nat} {n : Nat} (h : n + 1 ≤ mem.length) :
    ∃ m rest, mem = m :: rest ∧ n ≤ rest.length := by
  cases mem with
  | nil => simp at h
  | cons m rest => exact ⟨m, rest, rfl, by simpa using h⟩

theorem write_two (mem : List Nat) (N a b : Nat) (hN : 2 ≤ N) (hmem : N ≤ mem.length) :
    (do let s ← (parse_buffer_t.init mem N).write_uint8 a
        s.write_uint8 b)
      = .ok (span [a % 256, b % 256] (mem.drop 2) N) := by
  obtain ⟨m0, r0, rfl, h0⟩ := exists_cons_of_length (n := 1) (by omega : 1 + 1 ≤ mem.length)
  obtain ⟨m1, r1, rfl, _⟩ := exists_cons_of_length (n := 0) (by omega : 0 + 1 ≤ r0.length)
  rw [init_eq_span, write_span [] _ _ _ _ (by simp; omega)]
  simp only [bind, Except.bind, List.nil_append]
  rw [write_span [_] _ _ _ _ (by simp; omega)]
  simp

theorem write_three (mem : List Nat) (N a b c : Nat) (hN : 3 ≤ N) (hmem : N ≤ mem.length) :
    (do let s ← (parse_buffer_t.init mem N).write_uint8 a
        let s ← s.write_uint8 b
        s.write_uint8 c)
      = .ok (span [a % 256, b % 256, c % 256] (mem.drop 3) N) := by
  obtain ⟨m0, r0, rfl, h0⟩ := exists_cons_of_length (n := 2) (by omega : 2 + 1 ≤ mem.length)
  obtain ⟨m1, r1, rfl, h1⟩ := exists_cons_of_length (n := 1) (by omega : 1 + 1 ≤ r0.length)
  obtain ⟨m2, r2, rfl, _⟩ := exists_cons_of_length (n := 0) (by omega : 0 + 1 ≤ r1.length)
  rw [init_eq_span, write_span [] _ _ _ _ (by simp; omega)]
  simp only [bind, Except.bind, List.nil_append]
  rw [write_span [_] _ _ _ _ (by simp; omega)]
  simp only [List.singleton_append]
  rw [write_span [_, _] _ _ _ _ (by simp; omega)]
  simp

theorem to_uint8_lt (v : Int) : to_uint8 v < 256 := by
  unfold to_uint8
  have h0 := Int.emod_nonneg v (by norm_num : (256 : Int) ≠ 0)
  have h1 := Int.emod_lt_of_pos v (by norm_num : (0 : Int) < 256)
  omega

theorem to_uint8_mod (v : Int) : to_uint8 v % 256 = to_uint8 v :=
  Nat.mod_eq_of_lt (to_uint8_lt v)

theorem to_uint8_eq_toNat (v : Int) (h0 : 0 ≤ v) (h1 : v < 256) : to_uint8 v = v.toNat := by
  unfold to_uint8
  rw [Int.emod_eq_of_lt h0 h1]

theorem to_uint8_mod_128 (x : Int) : to_uint8 (x % 128) = (x % 128).toNat := by
  have h0 := Int.emod_nonneg x (by norm_num : (128 : Int) ≠ 0)
  have h1 := Int.emod_lt_of_pos x (by norm_num : (0 : Int) < 128)
  exact to_uint8_eq_toNat _ h0 (by omega)

/-- The encoder writes the wire message of every channel-voice event whose channel is
in `0..15` and whose data fields are bytes, and raises nothing. -/
theorem encode_event_message (mem : List Nat) (N : Nat) (hN : 3 ≤ N) (hmem : N ≤ mem.length)
    (e : snd_seq_event_t) (he : channel_voice_bytes e) :
    alsamidi_to_midiprotocol e (parse_buffer_t.init mem N)
      = .ok (span (event_message e).bytes (mem.drop (event_message e).bytes.length) N) := by
  cases e with
  | NOTEON c n v =>
    obtain ⟨hc, hn, hv⟩ := he
    simp only [alsamidi_to_midiprotocol]
    rw [write_three mem N _ _ _ hN hmem, nibble_and_0F c hc, nibble_or 9 (by decide) c hc,
      Nat.mod_eq_of_lt (by omega : 9 * 16 + c < 256), Nat.mod_eq_of_lt hn, Nat.mod_eq_of_lt hv]
    rfl
  | NOTEOFF c n v =>
    obtain ⟨hc, hn, hv⟩ := he
    simp only [alsamidi_to_midiprotocol]
    rw [write_three mem N _ _ _ hN hmem, nibble_and_0F c hc, nibble_or 8 (by decide) c hc,
      Nat.mod_eq_of_lt (by omega : 8 * 16 + c < 256), Nat.mod_eq_of_lt hn, Nat.mod_eq_of_lt hv]
    rfl
  | KEYPRESS c n v =>
    obtain ⟨hc, hn, hv⟩ := he
    simp only [alsamidi_to_midiprotocol]
    rw [write_three mem N _ _ _ hN hmem, nibble_and_0F c hc, nibble_or 10 (by decide) c hc,
      Nat.mod_eq_of_lt (by omega : 10 * 16 + c < 256), Nat.mod_eq_of_lt hn, Nat.mod_eq_of_lt hv]
    rfl
  | CONTROLLER c p v =>
    obtain ⟨hc, hp, hv0, hv1⟩ := he
    simp only [alsamidi_to_midiprotocol]
    rw [write_three mem N _ _ _ hN hmem, nibble_and_0F c hc, nibble_or 11 (by decide) c hc,
      Nat.mod_eq_of_lt (by omega : 11 * 16 + c < 256), Nat.mod_eq_of_lt hp, to_uint8_mod,
      to_uint8_eq_toNat v hv0 hv1]
    rfl
  | PGMCHANGE c v =>
    obtain ⟨hc, hv0, hv1⟩ := he
    simp only [alsamidi_to_midiprotocol]
    rw [write_two mem N _ _ (by omega) hmem, nibble_or 12 (by decide) c hc, int_land_FF,
      Nat.mod_eq_of_lt (by omega : 12 * 16 + c < 256), to_uint8_mod,
      Int.emod_eq_of_lt hv0 hv1, to_uint8_eq_toNat v hv0 hv1]
    rfl
  | CHANPRESS c v =>
    obtain ⟨hc, hv0, hv1⟩ := he
    simp only [alsamidi_to_midiprotocol]
    rw [write_two mem N _ _ (by omega) hmem, nibble_or 13 (by decide) c hc, int_land_FF,
      Nat.mod_eq_of_lt (by omega : 13 * 16 + c < 256), to_uint8_mod,
      Int.emod_eq_of_lt hv0 hv1, to_uint8_eq_toNat v hv0 hv1]
    rfl
  | PITCHBEND c v =>
    have hc : c < 16 := he
    simp only [alsamidi_to_midiprotocol]
    rw [write_three mem N _ _ _ hN hmem, nibble_and_0F c hc, nibble_or 14 (by decide) c hc,
      int_land_7F, int_land_7F, Int.shiftRight_eq_div_pow,
      Nat.mod_eq_of_lt (by omega : 14 * 16 + c < 256), to_uint8_mod, to_uint8_mod,
      to_uint8_mod_128, to_uint8_mod_128]
    rfl
  | SENSING => exact he.elim
  | SYSEX d => exact he.elim
  | OTHER t => exact he.elim

/-! ## What the decoder reads -/

theorem with_uint8_span (pre rest : List Nat) (x N : Nat) (h : pre.length < N)
    (k : Nat → parse_buffer_t → switch_result) :
    with_uint8 (span pre (x :: rest) N) k = k x (span (pre ++ [x]) rest N) := by
  simp only [with_uint8, read_span pre rest x N h]

theorem with_uint8_span_end (pre rest : List Nat) (N : Nat) (h : N ≤ pre.length)
    (k : Nat → parse_buffer_t → switch_result) :
    with_uint8 (span pre rest N) k = .threw .Underflow (span pre rest N) := by
  simp only [with_uint8, read_span_end pre rest N h]

theorem status_nibble {s : Nat} (h0 : 0x80 ≤ s) (h1 : s ≤ 0xEF) :
    s / 16 = 8 ∨ s / 16 = 9 ∨ s / 16 = 10 ∨ s / 16 = 11 ∨ s / 16 = 12 ∨ s / 16 = 13 ∨
      s / 16 = 14 := by
  omega

theorem shift_or_eq_add (msb lsb : Nat) (h : lsb < 0x80) :
    (msb <<< 7) ||| lsb = (msb <<< 7) + lsb := by
  rw [Nat.shiftLeft_eq, Nat.mul_comm]
  exact (Nat.mul_add_lt_is_or (i := 7) (by simpa using h) msb).symm

theorem length_two {data : List Nat} (h : data.length = 2) : ∃ d0 d1, data = [d0, d1] := by
  match data, h with
  | [d0, d1], _ => exact ⟨d0, d1, rfl⟩

theorem length_one {data : List Nat} (h : data.length = 1) : ∃ d0, data = [d0] := by
  match data, h with
  | [d0], _ => exact ⟨d0, rfl⟩

/-- The switch on a channel-voice status whose data bytes are all there: it reads
them and builds the event the specification gives. -/
theorem switch_data (s : Nat) (h0 : 0x80 ≤ s) (h1 : s ≤ 0xEF) (data : List Nat)
    (hd : data_group_for s data) (pre rest : List Nat) (N : Nat)
    (hN : pre.length + data.length ≤ N) :
    recv_rtpmidi_event_switch (s &&& 0xF0) s (span pre (data ++ rest) N)
      = .deliver (spec_event s data) (span (pre ++ data) rest N) := by
  have hs : s < 256 := by omega
  obtain ⟨hlen, hlt⟩ := hd
  rw [byte_and_F0 s hs]
  rcases status_nibble h0 h1 with h | h | h | h | h | h | h
  all_goals
    simp only [data_size, h] at hlen
    norm_num at hlen
  case inr.inr.inr.inr.inl =>
    obtain ⟨d0, rfl⟩ := length_one hlen
    simp only [List.length_singleton] at hN
    simp only [recv_rtpmidi_event_switch, h, List.singleton_append]
    norm_num
    rw [with_uint8_span _ _ _ _ (by omega), byte_and_0F s hs]
    simp [spec_event, h]
  case inr.inr.inr.inr.inr.inl =>
    obtain ⟨d0, rfl⟩ := length_one hlen
    simp only [List.length_singleton] at hN
    simp only [recv_rtpmidi_event_switch, h, List.singleton_append]
    norm_num
    rw [with_uint8_span _ _ _ _ (by omega), byte_and_0F s hs]
    simp [spec_event, h]
  all_goals
    obtain ⟨d0, d1, rfl⟩ := length_two hlen
    have hd0 : d0 < 0x80 := hlt d0 (by simp)
    simp only [List.length_cons, List.length_nil] at hN
    simp only [recv_rtpmidi_event_switch, h, List.cons_append, List.nil_append]
    norm_num
    rw [with_uint8_span _ _ _ _ (by omega),
      with_uint8_span _ _ _ _ (by simp; omega), byte_and_0F s hs]
    simp [spec_event, h, shift_or_eq_add d1 d0 hd0]

/-! ## The decoding loop -/

theorem span_position (pre rest : List Nat) (N : Nat) : (span pre rest N).position = pre.length :=
  rfl

theorem span_end (pre rest : List Nat) (N : Nat) : (span pre rest N).end_ = N :=
  rfl

/-- At the end of the payload the loop stops, whatever iterations are left. -/
theorem loop_at_end (port fuel cc : Nat) (d : rtpmidid_t) (pre rest : List Nat) (N : Nat)
    (hN : N ≤ pre.length) :
    recv_rtpmidi_event_loop port fuel cc d (span pre rest N)
      = ⟨d, span pre rest N, .finished⟩ := by
  have h : ¬ (pre.length < N) := by omega
  cases fuel with
  | zero => simp [recv_rtpmidi_event_loop, span_position, span_end, h]
  | succ fuel => simp [recv_rtpmidi_event_loop, span_position, span_end, h]

/-- One iteration on a complete channel-voice message that starts with its status
byte. -/
theorem loop_message (port fuel cc : Nat) (d : rtpmidid_t) (m : midi_message)
    (hm : m.channel_voice) (pre rest : List Nat) (N : Nat)
    (hN : pre.length + m.bytes.length ≤ N) :
    recv_rtpmidi_event_loop port (fuel + 1) cc d (span pre (m.bytes ++ rest) N)
      = recv_rtpmidi_event_loop port fuel m.status (d.event_output_direct port m.event)
          (span (pre ++ m.bytes) rest N) := by
  obtain ⟨s, data⟩ := m
  have hm' : 0x80 ≤ s ∧ s ≤ 0xEF ∧ data_group_for s data := hm
  obtain ⟨h0, h1, hd⟩ := hm'
  simp only [midi_message.bytes, List.length_cons] at hN
  simp only [midi_message.bytes, midi_message.event, List.cons_append]
  have hs : s < 256 := by omega
  have h80 : s &&& 0x80 ≠ 0 := (byte_and_80 s hs).2 h0
  have hlt : pre.length < N := by omega
  rw [recv_rtpmidi_event_loop]
  simp only [span_position, span_end, hlt, if_true, read_span pre _ s N hlt, h80,
    ne_eq, not_false_eq_true]
  rw [switch_data s h0 h1 data hd (pre ++ [s]) rest N (by simp; omega)]
  simp

/-- One iteration under running status: the data bytes of the next message follow
without a status byte. -/
theorem loop_running (port fuel : Nat) (d : rtpmidid_t) (s : Nat) (h0 : 0x80 ≤ s)
    (h1 : s ≤ 0xEF) (data : List Nat) (hd : data_group_for s data) (pre rest : List Nat)
    (N : Nat) (hN : pre.length + data.length ≤ N) :
    recv_rtpmidi_event_loop port (fuel + 1) s d (span pre (data ++ rest) N)
      = recv_rtpmidi_event_loop port fuel s (d.event_output_direct port (spec_event s data))
          (span (pre ++ data) rest N) := by
  have hpos : 1 ≤ data.length := by
    rw [hd.1]; unfold data_size; split <;> omega
  obtain ⟨d0, ds, rfl⟩ : ∃ d0 ds, data = d0 :: ds := by
    cases data with
    | nil => simp at hpos
    | cons d0 ds => exact ⟨d0, ds, rfl⟩
  have hd0 : d0 < 0x80 := hd.2 d0 (by simp)
  have h80 : ¬ (d0 &&& 0x80 ≠ 0) := by
    rw [byte_and_80 d0 (by omega)]; omega
  simp only [List.length_cons] at hN
  have hlt : pre.length < N := by omega
  rw [recv_rtpmidi_event_loop]
  simp only [List.cons_append, span_position, span_end, hlt, if_true,
    read_span pre _ d0 N hlt, h80, if_false, step_back_span]
  have := switch_data s h0 h1 (d0 :: ds) hd pre rest N (by simpa using hN)
  simp only [List.cons_append] at this
  rw [this]

/-- An iteration on a status byte in `0xF0..0xFF`: no case of the switch matches
`status & 0xF0 = 0xF0`, the function returns through the `default` case. -/
theorem loop_system_status (port fuel cc : Nat) (d : rtpmidid_t) (u : Nat) (h0 : 0xF0 ≤ u)
    (h1 : u ≤ 0xFF) (pre rest : List Nat) (N : Nat) (hN : pre.length < N) :
    recv_rtpmidi_event_loop port (fuel + 1) cc d (span pre (u :: rest) N)
      = ⟨d, span (pre ++ [u]) rest N, .not_implemented 0xF0⟩ := by
  have hu : u < 256 := by omega
  have h80 : u &&& 0x80 ≠ 0 := (byte_and_80 u hu).2 (by omega)
  have hF0 : u &&& 0xF0 = 0xF0 := by rw [byte_and_F0 u hu]; omega
  rw [recv_rtpmidi_event_loop]
  simp only [span_position, span_end, hN, if_true, read_span pre _ u N hN, h80,
    ne_eq, not_false_eq_true, hF0]
  simp [recv_rtpmidi_event_switch]

/-- The switch on a channel-voice status whose data bytes are cut short by the end
of the buffer: the read that finds no byte raises `Underflow`, with the cursor at
`end`. -/
theorem switch_short (s : Nat) (h0 : 0x80 ≤ s) (h1 : s ≤ 0xEF) (data : List Nat)
    (hshort : data.length < data_size s) (pre : List Nat) (N : Nat)
    (hN : N = pre.length + data.length) :
    recv_rtpmidi_event_switch (s &&& 0xF0) s (span pre data N)
      = .threw .Underflow (span (pre ++ data) [] N) := by
  have hs : s < 256 := by omega
  rw [byte_and_F0 s hs]
  have hsz : data_size s ≤ 2 := by unfold data_size; split <;> omega
  have hcases : data = [] ∨ ∃ d0, data = [d0] := by
    match data, hshort with
    | [], _ => exact Or.inl rfl
    | [d0], _ => exact Or.inr ⟨d0, rfl⟩
    | _ :: _ :: _, h => simp at h; omega
  rcases hcases with rfl | ⟨d0, rfl⟩
  · simp only [List.length_nil, Nat.add_zero] at hN
    rcases status_nibble h0 h1 with h | h | h | h | h | h | h
    all_goals
      simp only [recv_rtpmidi_event_switch, h, List.append_nil]
      norm_num
      rw [with_uint8_span_end _ _ _ (by omega)]
  · simp only [List.length_singleton] at hN
    have h2 : data_size s = 2 := by simp at hshort; omega
    rcases status_nibble h0 h1 with h | h | h | h | h | h | h
    all_goals
      simp only [data_size, h] at h2
      norm_num at h2
    all_goals
      simp only [recv_rtpmidi_event_switch, h]
      norm_num
      rw [with_uint8_span _ _ _ _ (by omega), with_uint8_span_end _ _ _ (by simp; omega)]

/-- An iteration on a channel-voice status whose data bytes are cut short by the end
of the buffer. -/
theorem loop_short (port fuel cc : Nat) (d : rtpmidid_t) (s : Nat) (h0 : 0x80 ≤ s)
    (h1 : s ≤ 0xEF) (data : List Nat) (hshort : data.length < data_size s) (pre : List Nat)
    (N : Nat) (hN : N = pre.length + 1 + data.length) :
    recv_rtpmidi_event_loop port (fuel + 1) cc d (span pre (s :: data) N)
      = ⟨d, span (pre ++ s :: data) [] N, .exception .Underflow⟩ := by
  have hs : s < 256 := by omega
  have h80 : s &&& 0x80 ≠ 0 := (byte_and_80 s hs).2 h0
  have hlt : pre.length < N := by omega
  rw [recv_rtpmidi_event_loop]
  simp only [span_position, span_end, hlt, if_true, read_span pre _ s N hlt, h80,
    ne_eq, not_false_eq_true]
  rw [switch_short s h0 h1 data hshort (pre ++ [s]) N (by simp; omega)]
  simp

theorem wire_cons (m : midi_message) (p : List midi_message) :
    wire (m :: p) = m.bytes ++ wire p := by
  simp [wire]

theorem length_le_wire (p : List midi_message) : p.length ≤ (wire p).length := by
  induction p with
  | nil => simp
  | cons m p ih =>
    rw [wire_cons]
    simp [midi_message.bytes]
    omega

theorem delivered_cons (d : rtpmidid_t) (port : Nat) (ev : snd_seq_event_t)
    (evs : List snd_seq_event_t) :
    delivered d port (ev :: evs) = delivered (d.event_output_direct port ev) port evs :=
  rfl

/-- The loop on a sequence of complete channel-voice messages: one iteration a
message, the events go out in the order of the messages. -/
theorem loop_messages (port fuel : Nat) (p : List midi_message)
    (hp : ∀ m ∈ p, m.channel_voice) (rest : List Nat) (N : Nat) :
    ∀ (cc : Nat) (d : rtpmidid_t) (pre : List Nat), pre.length + (wire p).length ≤ N →
      ∃ cc', recv_rtpmidi_event_loop port (fuel + p.length) cc d (span pre (wire p ++ rest) N)
        = recv_rtpmidi_event_loop port fuel cc' (delivered d port (p.map midi_message.event))
            (span (pre ++ wire p) rest N) := by
  induction p with
  | nil =>
    intro cc d pre _
    exact ⟨cc, by simp [wire, delivered]⟩
  | cons m p ih =>
    intro cc d pre hN
    rw [wire_cons, List.length_append] at hN
    have hm := hp m (by simp)
    obtain ⟨cc', h⟩ := ih (fun x hx => hp x (by simp [hx])) m.status
      (d.event_output_direct port m.event) (pre ++ m.bytes) (by simp; omega)
    refine ⟨cc', ?_⟩
    rw [wire_cons, List.length_cons, ← Nat.add_assoc, List.append_assoc,
      loop_message port _ cc d m hm pre _ N (by omega), h, List.map_cons, delivered_cons,
      List.append_assoc]

/-- The loop on data groups under the running status `s`. -/
theorem loop_groups (port fuel : Nat) (s : Nat) (h0 : 0x80 ≤ s) (h1 : s ≤ 0xEF)
    (groups : List (List Nat)) (hg : ∀ g ∈ groups, data_group_for s g) (rest : List Nat)
    (N : Nat) :
    ∀ (d : rtpmidid_t) (pre : List Nat), pre.length + groups.flatten.length ≤ N →
      recv_rtpmidi_event_loop port (fuel + groups.length) s d
          (span pre (groups.flatten ++ rest) N)
        = recv_rtpmidi_event_loop port fuel s (delivered d port (groups.map (spec_event s)))
            (span (pre ++ groups.flatten) rest N) := by
  induction groups with
  | nil =>
    intro d pre _
    simp [delivered]
  | cons g groups ih =>
    intro d pre hN
    rw [List.flatten_cons, List.length_append] at hN
    have hg0 := hg g (by simp)
    have h := ih (fun x hx => hg x (by simp [hx])) (d.event_output_direct port (spec_event s g))
      (pre ++ g) (by rw [List.length_append]; omega)
    rw [List.flatten_cons, List.length_cons, ← Nat.add_assoc, List.append_assoc,
      loop_running port _ d s h0 h1 g hg0 pre _ N (by omega), h, List.map_cons, delivered_cons,
      List.append_assoc]

theorem delivered_output (d : rtpmidid_t) (port : Nat) (evs : List snd_seq_event_t) :
    (delivered d port evs).seq.output = d.seq.output ++ evs.map (fun ev => (port, ev)) := by
  induction evs generalizing d with
  | nil => simp [delivered]
  | cons ev evs ih =>
    rw [delivered_cons, ih]
    simp [rtpmidid_t.event_output_direct]

theorem delivered_tables (d : rtpmidid_t) (port : Nat) (evs : List snd_seq_event_t) :
    (delivered d port evs).known_clients = d.known_clients ∧
    (delivered d port evs).known_servers_connections = d.known_servers_connections ∧
    (delivered d port evs).alsa_to_server = d.alsa_to_server := by
  induction evs generalizing d with
  | nil => simp [delivered]
  | cons ev evs ih =>
    rw [delivered_cons]
    obtain ⟨h1, h2, h3⟩ := ih (d.event_output_direct port ev)
    exact ⟨h1, h2, h3⟩

theorem recv_eq_loop (d : rtpmidid_t) (port : Nat) (bytes : List Nat) :
    recv_rtpmidi_event d port (parse_buffer_t.of_bytes bytes)
      = recv_rtpmidi_event_loop port bytes.length 0 d (span [] bytes bytes.length) := by
  simp [recv_rtpmidi_event, parse_buffer_t.of_bytes, parse_buffer_t.init, span]

/-- After the complete channel-voice messages `p` at the head of a payload, the
decoder has delivered their events and goes on with what follows them. -/
theorem recv_messages (d : rtpmidid_t) (port : Nat) (p : List midi_message)
    (hp : ∀ m ∈ p, m.channel_voice) (rest : List Nat) :
    ∃ cc', recv_rtpmidi_event d port (parse_buffer_t.of_bytes (wire p ++ rest))
      = recv_rtpmidi_event_loop port ((wire p ++ rest).length - p.length) cc'
          (delivered d port (p.map midi_message.event))
          (span (wire p) rest (wire p ++ rest).length) := by
  have hle : p.length ≤ (wire p ++ rest).length := by
    have := length_le_wire p
    rw [List.length_append]; omega
  obtain ⟨cc', h⟩ := loop_messages port ((wire p ++ rest).length - p.length) p hp rest
    (wire p ++ rest).length 0 d [] (by rw [List.length_append]; simp)
  refine ⟨cc', ?_⟩
  rw [recv_eq_loop]
  rw [Nat.sub_add_cancel hle] at h
  simpa using h

/-- A payload of complete channel-voice messages and nothing else. -/
theorem recv_messages_end (d : rtpmidid_t) (port : Nat) (p : List midi_message)
    (hp : ∀ m ∈ p, m.channel_voice) :
    recv_rtpmidi_event d port (parse_buffer_t.of_bytes (wire p))
      = ⟨delivered d port (p.map midi_message.event), span (wire p) [] (wire p).length,
          .finished⟩ := by
  obtain ⟨cc', h⟩ := recv_messages d port p hp []
  rw [List.append_nil] at h
  rw [h, loop_at_end _ _ _ _ _ _ _ (le_refl _)]

/-- Complete channel-voice messages, then a status byte in `0xF0..0xFF`. -/
theorem recv_messages_system (d : rtpmidid_t) (port : Nat) (p : List midi_message)
    (hp : ∀ m ∈ p, m.channel_voice) (u : Nat) (h0 : 0xF0 ≤ u) (h1 : u ≤ 0xFF)
    (r : List Nat) :
    recv_rtpmidi_event d port (parse_buffer_t.of_bytes (wire p ++ u :: r))
      = ⟨delivered d port (p.map midi_message.event),
          span (wire p ++ [u]) r (wire p ++ u :: r).length, .not_implemented 0xF0⟩ := by
  obtain ⟨cc', h⟩ := recv_messages d port p hp (u :: r)
  have hle := length_le_wire p
  obtain ⟨k, hk⟩ : ∃ k, (wire p ++ u :: r).length - p.length = k + 1 :=
    ⟨(wire p ++ u :: r).length - p.length - 1, by simp; omega⟩
  rw [h, hk, loop_system_status _ _ _ _ u h0 h1 _ _ _ (by simp)]

/-- Complete channel-voice messages, then a message cut short by the end of the
buffer. -/
theorem recv_messages_short (d : rtpmidid_t) (port : Nat) (p : List midi_message)
    (hp : ∀ m ∈ p, m.channel_voice) (s : Nat) (h0 : 0x80 ≤ s) (h1 : s ≤ 0xEF)
    (data : List Nat) (hshort : data.length < data_size s) :
    recv_rtpmidi_event d port (parse_buffer_t.of_bytes (wire p ++ s :: data))
      = ⟨delivered d port (p.map midi_message.event),
          span (wire p ++ s :: data) [] (wire p ++ s :: data).length,
          .exception .Underflow⟩ := by
  obtain ⟨cc', h⟩ := recv_messages d port p hp (s :: data)
  have hle := length_le_wire p
  obtain ⟨k, hk⟩ : ∃ k, (wire p ++ s :: data).length - p.length = k + 1 :=
    ⟨(wire p ++ s :: data).length - p.length - 1, by simp; omega⟩
  rw [h, hk, loop_short _ _ _ _ s h0 h1 data hshort _ _ (by simp; omega)]

/-- A payload that is one complete channel-voice message. -/
theorem recv_single (d : rtpmidid_t) (port : Nat) (m : midi_message) (hm : m.channel_voice) :
    recv_rtpmidi_event d port (parse_buffer_t.of_bytes m.bytes)
      = ⟨d.event_output_direct port m.event, span m.bytes [] m.bytes.length, .finished⟩ := by
  have h := recv_messages_end d port [m] (by simpa using hm)
  simpa [wire, delivered] using h

/-! ## Events and their wire messages -/

/-- The wire message of a channel-voice event in range is a complete channel-voice
message, and its event is the event itself. -/
theorem event_message_spec (e : snd_seq_event_t) (he : channel_voice_in_range e) :
    (event_message e).channel_voice ∧ (event_message e).event = e := by
  cases e with
  | NOTEON c n v =>
    obtain ⟨hc, hn, hv⟩ := he
    have h16 : (0x90 + c) / 16 = 9 := by omega
    have hm : (0x90 + c) % 16 = c := by omega
    refine ⟨⟨by show 0x80 ≤ 0x90 + c; omega, by show 0x90 + c ≤ 0xEF; omega, ?_, ?_⟩, ?_⟩
    · simp [event_message, data_size, h16]
    · intro b hb; simp [event_message] at hb; rcases hb with rfl | rfl <;> assumption
    · simp [event_message, midi_message.event, spec_event, h16, hm]
  | NOTEOFF c n v =>
    obtain ⟨hc, hn, hv⟩ := he
    have h16 : (0x80 + c) / 16 = 8 := by omega
    have hm : (0x80 + c) % 16 = c := by omega
    refine ⟨⟨by show 0x80 ≤ 0x80 + c; omega, by show 0x80 + c ≤ 0xEF; omega, ?_, ?_⟩, ?_⟩
    · simp [event_message, data_size, h16]
    · intro b hb; simp [event_message] at hb; rcases hb with rfl | rfl <;> assumption
    · simp [event_message, midi_message.event, spec_event, h16, hm]
  | KEYPRESS c n v =>
    obtain ⟨hc, hn, hv⟩ := he
    have h16 : (0xA0 + c) / 16 = 10 := by omega
    have hm : (0xA0 + c) % 16 = c := by omega
    refine ⟨⟨by show 0x80 ≤ 0xA0 + c; omega, by show 0xA0 + c ≤ 0xEF; omega, ?_, ?_⟩, ?_⟩
    · simp [event_message, data_size, h16]
    · intro b hb; simp [event_message] at hb; rcases hb with rfl | rfl <;> assumption
    · simp [event_message, midi_message.event, spec_event, h16, hm]
  | CONTROLLER c q v =>
    obtain ⟨hc, hq, hv0, hv1⟩ := he
    have h16 : (0xB0 + c) / 16 = 11 := by omega
    have hm : (0xB0 + c) % 16 = c := by omega
    refine ⟨⟨by show 0x80 ≤ 0xB0 + c; omega, by show 0xB0 + c ≤ 0xEF; omega, ?_, ?_⟩, ?_⟩
    · simp [event_message, data_size, h16]
    · intro b hb; simp [event_message] at hb; rcases hb with rfl | rfl
      · assumption
      · omega
    · simp [event_message, midi_message.event, spec_event, h16, hm, Int.toNat_of_nonneg hv0]
  | PGMCHANGE c v =>
    obtain ⟨hc, hv0, hv1⟩ := he
    have h16 : (0xC0 + c) / 16 = 12 := by omega
    have hm : (0xC0 + c) % 16 = c := by omega
    refine ⟨⟨by show 0x80 ≤ 0xC0 + c; omega, by show 0xC0 + c ≤ 0xEF; omega, ?_, ?_⟩, ?_⟩
    · simp [event_message, data_size, h16]
    · intro b hb; simp [event_message] at hb; omega
    · simp [event_message, midi_message.event, spec_event, h16, hm, Int.toNat_of_nonneg hv0]
  | CHANPRESS c v =>
    obtain ⟨hc, hv0, hv1⟩ := he
    have h16 : (0xD0 + c) / 16 = 13 := by omega
    have hm : (0xD0 + c) % 16 = c := by omega
    refine ⟨⟨by show 0x80 ≤ 0xD0 + c; omega, by show 0xD0 + c ≤ 0xEF; omega, ?_, ?_⟩, ?_⟩
    · simp [event_message, data_size, h16]
    · intro b hb; simp [event_message] at hb; omega
    · simp [event_message, midi_message.event, spec_event, h16, hm, Int.toNat_of_nonneg hv0]
  | PITCHBEND c v =>
    obtain ⟨hc, hv0, hv1⟩ := he
    have h16 : (0xE0 + c) / 16 = 14 := by omega
    have hm : (0xE0 + c) % 16 = c := by omega
    have hl : ((v + 8192) % 128).toNat < 0x80 := by omega
    refine ⟨⟨by show 0x80 ≤ 0xE0 + c; omega, by show 0xE0 + c ≤ 0xEF; omega, ?_, ?_⟩, ?_⟩
    · simp [event_message, data_size, h16]
    · intro b hb; simp [event_message] at hb; rcases hb with rfl | rfl <;> omega
    · simp only [event_message, midi_message.event, spec_event, h16, hm, List.getD_cons_zero,
        List.getD_cons_succ]
      norm_num
      rw [shift_or_eq_add _ _ hl, Nat.shiftLeft_eq]
      push_cast
      omega
  | SENSING => exact he.elim
  | SYSEX data => exact he.elim
  | OTHER t => exact he.elim

theorem in_range_bytes (e : snd_seq_event_t) (he : channel_voice_in_range e) :
    channel_voice_bytes e := by
  cases e <;> simp only [channel_voice_in_range, channel_voice_bytes] at he ⊢ <;> omega

/-- The event of a complete channel-voice message has its channel in `0..15` and bytes
as data, and its wire message is the message itself. -/
theorem message_event_spec (m : midi_message) (hm : m.channel_voice) :
    channel_voice_bytes m.event ∧ event_message m.event = m := by
  obtain ⟨s, data⟩ := m
  have hm' : 0x80 ≤ s ∧ s ≤ 0xEF ∧ data_group_for s data := hm
  obtain ⟨h0, h1, hlen, hlt⟩ := hm'
  have hc : s % 16 < 16 := Nat.mod_lt _ (by norm_num)
  rcases status_nibble h0 h1 with h | h | h | h | h | h | h
  all_goals
    simp only [data_size, h] at hlen
    norm_num at hlen
  case inr.inr.inr.inr.inl =>
    obtain ⟨d0, rfl⟩ := length_one hlen
    have hd0 : d0 < 0x80 := hlt d0 (by simp)
    have hs : 0xC0 + s % 16 = s := by omega
    simp only [midi_message.event, spec_event, h]
    norm_num
    refine ⟨⟨hc, by omega, by omega⟩, ?_⟩
    simp [event_message, hs]
  case inr.inr.inr.inr.inr.inl =>
    obtain ⟨d0, rfl⟩ := length_one hlen
    have hd0 : d0 < 0x80 := hlt d0 (by simp)
    have hs : 0xD0 + s % 16 = s := by omega
    simp only [midi_message.event, spec_event, h]
    norm_num
    refine ⟨⟨hc, by omega, by omega⟩, ?_⟩
    simp [event_message, hs]
  case inr.inr.inr.inr.inr.inr =>
    obtain ⟨d0, d1, rfl⟩ := length_two hlen
    have hd0 : d0 < 0x80 := hlt d0 (by simp)
    have hd1 : d1 < 0x80 := hlt d1 (by simp)
    have hs : 0xE0 + s % 16 = s := by omega
    simp only [midi_message.event, spec_event, h]
    norm_num
    refine ⟨hc, ?_⟩
    rw [shift_or_eq_add _ _ hd0, Nat.shiftLeft_eq]
    simp only [event_message, hs]
    have e0 : (((d1 * 2 ^ 7 + d0 : Nat) : Int) - 8192 + 8192) % 128 = (d0 : Int) := by
      push_cast; omega
    have e1 : (((d1 * 2 ^ 7 + d0 : Nat) : Int) - 8192 + 8192) / 128 % 128 = (d1 : Int) := by
      push_cast; omega
    rw [e0, e1]
    simp
  all_goals
    obtain ⟨d0, d1, rfl⟩ := length_two hlen
    have hd0 : d0 < 0x80 := hlt d0 (by simp)
    have hd1 : d1 < 0x80 := hlt d1 (by simp)
    simp only [midi_message.event, spec_event, h]
    norm_num
    refine ⟨⟨hc, by omega, by omega⟩, ?_⟩
    simp [event_message]
    omega

/-- The encoder followed by the decoder, on a channel-voice event in range. -/
theorem encode_then_decode (d : rtpmidid_t) (port : Nat) (mem : List Nat)
    (e : snd_seq_event_t) (hmem : mem.length = 128) (he : channel_voice_in_range e) :
    ∃ stream, alsamidi_to_midiprotocol e (parse_buffer_t.init mem 128) = .ok stream ∧
      stream.written = (event_message e).bytes ∧
      recv_rtpmidi_event d port (parse_buffer_t.of_bytes (event_message e).bytes)
        = ⟨d.event_output_direct port e, span (event_message e).bytes []
            (event_message e).bytes.length, .finished⟩ := by
  obtain ⟨hcv, hev⟩ := event_message_spec e he
  refine ⟨_, encode_event_message mem 128 (by norm_num) (by omega) e (in_range_bytes e he),
    written_span _ _ _, ?_⟩
  rw [recv_single d port _ hcv, hev]

/-! ## The sysex case of the encoder -/

theorem write_sysex_span (data : List Nat) (hb : ∀ b ∈ data, b < 256) (N : Nat) :
    ∀ (pre rest : List Nat), data.length ≤ rest.length → pre.length + data.length ≤ N →
      write_sysex data (span pre rest N) = .ok (span (pre ++ data) (rest.drop data.length) N) := by
  induction data with
  | nil =>
    intro pre rest _ _
    simp [write_sysex]
  | cons b data ih =>
    intro pre rest hrest hN
    simp only [List.length_cons] at hrest hN
    obtain ⟨m, rest', rfl, _⟩ := exists_cons_of_length (n := data.length) hrest
    have hb0 : b % 256 = b := Nat.mod_eq_of_lt (hb b (by simp))
    rw [write_sysex, write_span pre rest' m b N (by omega), hb0]
    simp only
    rw [ih (fun x hx => hb x (by simp [hx])) (pre ++ [b]) rest' (by simpa using hrest)
      (by simp; omega)]
    simp

/-! ## The claims -/

/-- C1: for every channel-voice event `e` with channel in 0..15, data bytes in 0..127
and pitch-bend value in -8192..8191, the decoder run on exactly the bytes the encoder
writes for `e` into an empty 128-byte buffer consumes them all and delivers exactly
one event, which is `e`. -/
theorem decode_encode_channel_voice (d : rtpmidid_t) (port : Nat) (mem : List Nat)
    (e : snd_seq_event_t) (hmem : mem.length = 128) (he : channel_voice_in_range e) :
    ∃ stream, alsamidi_to_midiprotocol e (parse_buffer_t.init mem 128) = .ok stream ∧
      (recv_rtpmidi_event d port (parse_buffer_t.of_bytes stream.written)).outcome
        = .finished ∧
      (recv_rtpmidi_event d port (parse_buffer_t.of_bytes stream.written)).self.seq.output
        = d.seq.output ++ [(port, e)] := by
  obtain ⟨stream, henc, hw, hdec⟩ := encode_then_decode d port mem e hmem he
  refine ⟨stream, henc, ?_, ?_⟩
  · rw [hw, hdec]
  · rw [hw, hdec]; rfl

/-- A witness of C1: note on, channel 3, note 60, velocity 100, from a daemon that has
sent nothing and a zeroed buffer. -/
theorem decode_encode_channel_voice_witness :
    (List.replicate 128 0).length = 128 ∧ channel_voice_in_range (.NOTEON 3 60 100) ∧
    ∃ stream, alsamidi_to_midiprotocol (.NOTEON 3 60 100)
        (parse_buffer_t.init (List.replicate 128 0) 128) = .ok stream ∧
      (recv_rtpmidi_event (rtpmidid_t.idle "d") 7
        (parse_buffer_t.of_bytes stream.written)).outcome = .finished ∧
      (recv_rtpmidi_event (rtpmidid_t.idle "d") 7
        (parse_buffer_t.of_bytes stream.written)).self.seq.output
        = (rtpmidid_t.idle "d").seq.output ++ [(7, .NOTEON 3 60 100)] :=
  ⟨by simp, by simp [channel_voice_in_range],
    decode_encode_channel_voice (rtpmidid_t.idle "d") 7 (List.replicate 128 0)
      (.NOTEON 3 60 100) (by simp) (by simp [channel_voice_in_range])⟩

/-- C2: for every well-formed single channel-voice message (a status byte in
0x80..0xEF followed by the one or two data bytes its type requires, each below 0x80)
the decoder delivers exactly one event, and the encoder writes for that event exactly
the bytes of the message. -/
theorem encode_decode_message (d : rtpmidid_t) (port : Nat) (mem : List Nat)
    (m : midi_message) (hmem : mem.length = 128) (hm : m.channel_voice) :
    ∃ ev stream,
      (recv_rtpmidi_event d port (parse_buffer_t.of_bytes m.bytes)).outcome = .finished ∧
      (recv_rtpmidi_event d port (parse_buffer_t.of_bytes m.bytes)).self.seq.output
        = d.seq.output ++ [(port, ev)] ∧
      alsamidi_to_midiprotocol ev (parse_buffer_t.init mem 128) = .ok stream ∧
      stream.written = m.bytes := by
  obtain ⟨hb, hmsg⟩ := message_event_spec m hm
  refine ⟨m.event, _, ?_, ?_,
    encode_event_message mem 128 (by norm_num) (by omega) m.event hb, ?_⟩
  · rw [recv_single d port m hm]
  · rw [recv_single d port m hm]; rfl
  · rw [written_span, hmsg]

/-- A witness of C2: the program change `0xC5 0x10`. -/
theorem encode_decode_message_witness :
    (List.replicate 128 0).length = 128 ∧ (midi_message.mk 0xC5 [0x10]).channel_voice ∧
    ∃ ev stream,
      (recv_rtpmidi_event (rtpmidid_t.idle "d") 7
        (parse_buffer_t.of_bytes (midi_message.mk 0xC5 [0x10]).bytes)).outcome = .finished ∧
      (recv_rtpmidi_event (rtpmidid_t.idle "d") 7
        (parse_buffer_t.of_bytes (midi_message.mk 0xC5 [0x10]).bytes)).self.seq.output
        = (rtpmidid_t.idle "d").seq.output ++ [(7, ev)] ∧
      alsamidi_to_midiprotocol ev (parse_buffer_t.init (List.replicate 128 0) 128)
        = .ok stream ∧
      stream.written = (midi_message.mk 0xC5 [0x10]).bytes :=
  ⟨by simp, by simp [midi_message.channel_voice, data_group_for, data_size],
    encode_decode_message (rtpmidid_t.idle "d") 7 (List.replicate 128 0) ⟨0xC5, [0x10]⟩
      (by simp) (by simp [midi_message.channel_voice, data_group_for, data_size])⟩

/-- C3: running status on receive. For every channel-voice status byte `s` and every
non-empty list of data groups (each of the size `s` requires, every byte below 0x80),
the payload `s` followed by the groups decodes to one event a group, in payload
order, each with the type and channel of `s` and the data of its group, and the
decoder consumes the whole payload. -/
theorem running_status (d : rtpmidid_t) (port : Nat) (s : Nat) (groups : List (List Nat))
    (h0 : 0x80 ≤ s) (h1 : s ≤ 0xEF) (hne : groups ≠ [])
    (hg : ∀ g ∈ groups, data_group_for s g) :
    (recv_rtpmidi_event d port (parse_buffer_t.of_bytes (s :: groups.flatten))).outcome
      = .finished ∧
    (recv_rtpmidi_event d port (parse_buffer_t.of_bytes (s :: groups.flatten))).self.seq.output
      = d.seq.output ++ groups.map (fun g => (port, spec_event s g)) := by
  obtain ⟨g, gs, rfl⟩ : ∃ g gs, groups = g :: gs := by
    cases groups with
    | nil => exact (hne rfl).elim
    | cons g gs => exact ⟨g, gs, rfl⟩
  have hg0 := hg g (by simp)
  have hgs : ∀ x ∈ gs, data_group_for s x := fun x hx => hg x (by simp [hx])
  have hlen : gs.length ≤ gs.flatten.length := by
    clear hg hne
    induction gs with
    | nil => simp
    | cons x xs ih =>
      have hx : 1 ≤ x.length := by
        rw [(hgs x (by simp)).1]; unfold data_size; split <;> omega
      have := ih (fun y hy => hgs y (by simp [hy]))
      rw [List.flatten_cons, List.length_append, List.length_cons]
      omega
  have key : recv_rtpmidi_event d port (parse_buffer_t.of_bytes (s :: (g :: gs).flatten))
      = ⟨delivered d port ((g :: gs).map (spec_event s)),
          span (s :: (g :: gs).flatten) [] (s :: (g :: gs).flatten).length, .finished⟩ := by
    rw [recv_eq_loop]
    generalize hNdef : (s :: (g :: gs).flatten).length = N
    have hNval : N = 1 + g.length + gs.flatten.length := by
      rw [← hNdef, List.length_cons, List.flatten_cons, List.length_append]; omega
    obtain ⟨k, hk⟩ : ∃ k, N = (k + gs.length) + 1 :=
      ⟨g.length + gs.flatten.length - gs.length, by omega⟩
    have hfuel : recv_rtpmidi_event_loop port N 0 d (span [] (s :: (g :: gs).flatten) N)
        = recv_rtpmidi_event_loop port (k + gs.length + 1) 0 d
            (span [] (s :: (g ++ gs.flatten)) N) := by
      rw [← hk, List.flatten_cons]
    have h1st := loop_message port (k + gs.length) 0 d ⟨s, g⟩ ⟨h0, h1, hg0⟩ [] gs.flatten
      N (by simp [midi_message.bytes]; omega)
    simp only [midi_message.bytes, List.cons_append, List.nil_append,
      midi_message.event] at h1st
    have hrun := loop_groups port k s h0 h1 gs hgs [] N
      (d.event_output_direct port (spec_event s g)) (s :: g)
      (by rw [List.length_cons]; omega)
    simp only [List.append_nil, List.cons_append] at hrun
    rw [hfuel, h1st, hrun, loop_at_end _ _ _ _ _ _ _
      (by rw [List.length_cons, List.length_append]; omega)]
    simp [delivered_cons]
  rw [key]
  exact ⟨rfl, by rw [delivered_output]; simp⟩

/-- The witness of C3: `0x90 40 7F 42 7F` decodes to note on (channel 0, note 0x40,
velocity 0x7F), then note on (channel 0, note 0x42, velocity 0x7F). -/
theorem running_status_witness :
    (recv_rtpmidi_event (rtpmidid_t.idle "d") 7
      (parse_buffer_t.of_bytes [0x90, 0x40, 0x7F, 0x42, 0x7F])).outcome = .finished ∧
    (recv_rtpmidi_event (rtpmidid_t.idle "d") 7
      (parse_buffer_t.of_bytes [0x90, 0x40, 0x7F, 0x42, 0x7F])).self.seq.output
      = [(7, .NOTEON 0 0x40 0x7F), (7, .NOTEON 0 0x42 0x7F)] := by
  have h := running_status (rtpmidid_t.idle "d") 7 0x90 [[0x40, 0x7F], [0x42, 0x7F]]
    (by norm_num) (by norm_num) (by simp) (by
      intro g hg
      simp only [List.mem_cons, List.mem_singleton, List.not_mem_nil, or_false] at hg
      rcases hg with rfl | rfl <;> simp [data_group_for, data_size])
  simpa [spec_event, rtpmidid_t.idle] using h

/-- C4: for every payload `p ++ [u] ++ r`, where `p` is a sequence of complete
channel-voice messages and `u` is a status byte in `0xF0..0xFF` (none of which the
switch has a reachable case for, 0xF1 among them), the decoder delivers exactly the
events of `p`, in order, nothing decoded from `u` or `r`, and returns through the
`default` case: no error is raised, the cursor stays right after `u`, and the three
registry tables are as before. -/
theorem unsupported_status_stops (d : rtpmidid_t) (port : Nat) (p : List midi_message)
    (u : Nat) (r : List Nat) (hp : ∀ m ∈ p, m.channel_voice) (h0 : 0xF0 ≤ u)
    (h1 : u ≤ 0xFF) :
    (recv_rtpmidi_event d port (parse_buffer_t.of_bytes (wire p ++ [u] ++ r))).outcome
      = .not_implemented 0xF0 ∧
    (recv_rtpmidi_event d port (parse_buffer_t.of_bytes (wire p ++ [u] ++ r))).self.seq.output
      = d.seq.output ++ p.map (fun m => (port, m.event)) ∧
    (recv_rtpmidi_event d port
      (parse_buffer_t.of_bytes (wire p ++ [u] ++ r))).midi_data.position
      = (wire p).length + 1 ∧
    (recv_rtpmidi_event d port
      (parse_buffer_t.of_bytes (wire p ++ [u] ++ r))).self.known_clients
      = d.known_clients ∧
    (recv_rtpmidi_event d port
      (parse_buffer_t.of_bytes (wire p ++ [u] ++ r))).self.known_servers_connections
      = d.known_servers_connections ∧
    (recv_rtpmidi_event d port
      (parse_buffer_t.of_bytes (wire p ++ [u] ++ r))).self.alsa_to_server
      = d.alsa_to_server := by
  have e : wire p ++ [u] ++ r = wire p ++ u :: r := by simp
  rw [e, recv_messages_system d port p hp u h0 h1 r]
  obtain ⟨t1, t2, t3⟩ := delivered_tables d port (p.map midi_message.event)
  refine ⟨rfl, ?_, ?_, t1, t2, t3⟩
  · rw [delivered_output]; simp
  · simp [span]

/-- The witness of C4: a note on, then the unsupported `0xF1`, then another note on. -/
theorem unsupported_status_stops_witness :
    (recv_rtpmidi_event (rtpmidid_t.idle "d") 7
      (parse_buffer_t.of_bytes [0x90, 0x40, 0x7F, 0xF1, 0x90, 0x42, 0x7F])).outcome
      = .not_implemented 0xF0 ∧
    (recv_rtpmidi_event (rtpmidid_t.idle "d") 7
      (parse_buffer_t.of_bytes [0x90, 0x40, 0x7F, 0xF1, 0x90, 0x42, 0x7F])).self.seq.output
      = [(7, .NOTEON 0 0x40 0x7F)] := by
  have h := unsupported_status_stops (rtpmidid_t.idle "d") 7 [⟨0x90, [0x40, 0x7F]⟩] 0xF1
    [0x90, 0x42, 0x7F]
    (by simp [midi_message.channel_voice, data_group_for, data_size])
    (by norm_num) (by norm_num)
  exact ⟨by simpa [wire, midi_message.bytes] using h.1,
    by simpa [wire, midi_message.bytes, midi_message.event, spec_event, rtpmidid_t.idle]
      using h.2.1⟩

/-- C5, as the claim states it, fails: the pitch-bend value +8191 is encoded with
msb `0x7F`, not `0x3F` (8191 + 8192 = 16383 = `0x7F << 7 | 0x7F`). -/
theorem pitchbend_max_msb_is_7F :
    ∃ stream, alsamidi_to_midiprotocol (.PITCHBEND 0 8191)
        (parse_buffer_t.init (List.replicate 128 0) 128) = .ok stream ∧
      stream.written = [0xE0, 0x7F, 0x7F] ∧ stream.written ≠ [0xE0, 0x7F, 0x3F] := by
  refine ⟨_, encode_event_message (List.replicate 128 0) 128 (by norm_num) (by simp)
    (.PITCHBEND 0 8191) (by simp [channel_voice_bytes]), ?_, ?_⟩
  · rw [written_span]; decide
  · rw [written_span]; decide

/-- C5, amended: on every channel the encoder maps the pitch-bend value -8192 to
lsb=0x00, msb=0x00, the value +8191 to lsb=0x7F, msb=0x7F and the value 0 to lsb=0x00,
msb=0x40, and decoding each of these three encodings delivers the original event. -/
theorem pitchbend_extremes (d : rtpmidid_t) (port : Nat) (mem : List Nat) (c : Nat)
    (hmem : mem.length = 128) (hc : c < 16) :
    ∀ v lsb msb, (v, lsb, msb) ∈ [((-8192 : Int), 0x00, 0x00), (8191, 0x7F, 0x7F),
        (0, 0x00, 0x40)] →
      ∃ stream, alsamidi_to_midiprotocol (.PITCHBEND c v) (parse_buffer_t.init mem 128)
          = .ok stream ∧
        stream.written = [0xE0 ||| c, lsb, msb] ∧
        (recv_rtpmidi_event d port (parse_buffer_t.of_bytes stream.written)).outcome
          = .finished ∧
        (recv_rtpmidi_event d port (parse_buffer_t.of_bytes stream.written)).self.seq.output
          = d.seq.output ++ [(port, .PITCHBEND c v)] := by
  intro v lsb msb hmem3
  have hor : 0xE0 ||| c = 0xE0 + c := nibble_or 14 (by decide) c hc
  have hv : v = -8192 ∧ lsb = 0 ∧ msb = 0 ∨ v = 8191 ∧ lsb = 0x7F ∧ msb = 0x7F ∨
      v = 0 ∧ lsb = 0 ∧ msb = 0x40 := by
    simpa using hmem3
  have he : channel_voice_in_range (.PITCHBEND c v) := by
    refine ⟨hc, ?_, ?_⟩ <;> omega
  obtain ⟨stream, henc, hw, hdec⟩ := encode_then_decode d port mem _ hmem he
  have hbytes : (event_message (.PITCHBEND c v)).bytes = [0xE0 ||| c, lsb, msb] := by
    rw [hor]
    rcases hv with ⟨rfl, rfl, rfl⟩ | ⟨rfl, rfl, rfl⟩ | ⟨rfl, rfl, rfl⟩ <;>
      simp [event_message, midi_message.bytes]
  refine ⟨stream, henc, by rw [hw, hbytes], ?_, ?_⟩
  · rw [hw, hdec]
  · rw [hw, hdec]; rfl

/-- A witness of the amended C5: channel 2, the value +8191. -/
theorem pitchbend_extremes_witness :
    (List.replicate 128 0).length = 128 ∧ 2 < 16 ∧
    ∃ stream, alsamidi_to_midiprotocol (.PITCHBEND 2 8191)
        (parse_buffer_t.init (List.replicate 128 0) 128) = .ok stream ∧
      stream.written = [0xE0 ||| 2, 0x7F, 0x7F] ∧
      (recv_rtpmidi_event (rtpmidid_t.idle "d") 7
        (parse_buffer_t.of_bytes stream.written)).outcome = .finished ∧
      (recv_rtpmidi_event (rtpmidid_t.idle "d") 7
        (parse_buffer_t.of_bytes stream.written)).self.seq.output
        = (rtpmidid_t.idle "d").seq.output ++ [(7, .PITCHBEND 2 8191)] :=
  ⟨by simp, by decide,
    pitchbend_extremes (rtpmidid_t.idle "d") 7 (List.replicate 128 0) 2 (by simp) (by decide)
      8191 0x7F 0x7F (by simp)⟩

/-- C6: byte-exact encoding. For every channel-voice event with channel `c` in 0..15
whose data fields are bytes, the encoder raises nothing and writes into an empty
128-byte buffer the status byte `type nibble | c` followed by the data bytes of the
event and nothing else: the three bytes `[0x80|c, note, vel]`, `[0x90|c, note, vel]`,
`[0xA0|c, note, pressure]`, `[0xB0|c, controller, value]`,
`[0xE0|c, (v+8192) & 0x7F, ((v+8192) >> 7) & 0x7F]`, or the two bytes
`[0xC0|c, program]`, `[0xD0|c, pressure]`. -/
theorem encode_byte_exact (mem : List Nat) (e : snd_seq_event_t) (hmem : mem.length = 128)
    (he : channel_voice_bytes e) :
    ∃ stream, alsamidi_to_midiprotocol e (parse_buffer_t.init mem 128) = .ok stream ∧
      stream.written.map Int.ofNat = listed_bytes e ∧
      stream.position = (listed_bytes e).length := by
  refine ⟨_, encode_event_message mem 128 (by norm_num) (by omega) e he, ?_, ?_⟩
  · rw [written_span]
    cases e with
    | NOTEON c n v =>
      simp [event_message, midi_message.bytes, listed_bytes, nibble_or 9 (by decide) c he.1]
    | NOTEOFF c n v =>
      simp [event_message, midi_message.bytes, listed_bytes, nibble_or 8 (by decide) c he.1]
    | KEYPRESS c n v =>
      simp [event_message, midi_message.bytes, listed_bytes, nibble_or 10 (by decide) c he.1]
    | CONTROLLER c q v =>
      simp [event_message, midi_message.bytes, listed_bytes, nibble_or 11 (by decide) c he.1,
        Int.toNat_of_nonneg he.2.2.1]
    | PGMCHANGE c v =>
      simp [event_message, midi_message.bytes, listed_bytes, nibble_or 12 (by decide) c he.1,
        Int.toNat_of_nonneg he.2.1]
    | CHANPRESS c v =>
      simp [event_message, midi_message.bytes, listed_bytes, nibble_or 13 (by decide) c he.1,
        Int.toNat_of_nonneg he.2.1]
    | PITCHBEND c v =>
      have hc : c < 16 := he
      have h0 := Int.emod_nonneg (v + 8192) (by norm_num : (128 : Int) ≠ 0)
      have h1 := Int.emod_nonneg ((v + 8192) / 128) (by norm_num : (128 : Int) ≠ 0)
      simp only [event_message, midi_message.bytes, listed_bytes, int_land_7F,
        Int.shiftRight_eq_div_pow, List.map_cons, List.map_nil, Int.ofNat_eq_coe,
        Int.toNat_of_nonneg h0]
      rw [nibble_or 14 (by decide) c hc]
      have h1' : 0 ≤ (v + 8192) / ((2 ^ 7 : Nat) : Int) % 128 := by simpa using h1
      rw [← Int.toNat_of_nonneg h1']
      simp
    | SENSING => exact he.elim
    | SYSEX data => exact he.elim
    | OTHER t => exact he.elim
  · cases e <;> first | exact he.elim | rfl

/-- The witnesses of C6: note on, channel 3, note 60, velocity 100 gives
`0x93 0x3C 0x64`; pitch bend, channel 0, value +2048 gives `0xE0 0x00 0x50`. -/
theorem encode_byte_exact_witness :
    (∃ stream, alsamidi_to_midiprotocol (.NOTEON 3 60 100)
        (parse_buffer_t.init (List.replicate 128 0) 128) = .ok stream ∧
      stream.written.map Int.ofNat = [0x93, 0x3C, 0x64] ∧ stream.position = 3) ∧
    (∃ stream, alsamidi_to_midiprotocol (.PITCHBEND 0 2048)
        (parse_buffer_t.init (List.replicate 128 0) 128) = .ok stream ∧
      stream.written.map Int.ofNat = [0xE0, 0x00, 0x50] ∧ stream.position = 3) := by
  constructor
  · obtain ⟨stream, h1, h2, h3⟩ := encode_byte_exact (List.replicate 128 0) (.NOTEON 3 60 100)
      (by simp) (by simp [channel_voice_bytes])
    exact ⟨stream, h1, by rw [h2]; decide, by rw [h3]; rfl⟩
  · obtain ⟨stream, h1, h2, h3⟩ := encode_byte_exact (List.replicate 128 0)
      (.PITCHBEND 0 2048) (by simp) (by simp [channel_voice_bytes])
    exact ⟨stream, h1, by rw [h2]; decide, by rw [h3]; rfl⟩

/-- C7 fails on the code: on a payload that starts with the active-sensing byte `0xFE`
the decoder delivers no event and decodes nothing of what follows. The switch tests
`current_command & 0xF0`, which is `0xF0` for `0xFE`, so its `case 0xFE` is never
taken and the function returns through the `default` case. -/
theorem active_sensing_not_delivered (d : rtpmidid_t) (port : Nat) (r : List Nat) :
    recv_rtpmidi_event d port (parse_buffer_t.of_bytes (0xFE :: r))
      = ⟨d, span [0xFE] r (r.length + 1), .not_implemented 0xF0⟩ := by
  have h := recv_messages_system d port [] (by simp) 0xFE (by norm_num) (by norm_num) r
  simpa [wire, delivered] using h

/-- C8, as the claim states it, fails: on the sysex `F0 01 F7` the decoder delivers no
event at all and returns through the `default` case. -/
theorem sysex_payload_delivers_nothing :
    (recv_rtpmidi_event (rtpmidid_t.idle "d") 7
      (parse_buffer_t.of_bytes [0xF0, 0x01, 0xF7])).self.seq.output = [] ∧
    (recv_rtpmidi_event (rtpmidid_t.idle "d") 7
      (parse_buffer_t.of_bytes [0xF0, 0x01, 0xF7])).outcome = .not_implemented 0xF0 := by
  decide

/-- C8, amended: the decoder has no sysex case. On a status byte `0xF0` after complete
channel-voice messages it delivers the events of these messages and nothing for the
sysex, reads no byte after the `0xF0` and returns through the `default` case;
consequently the bytes the encoder writes for a sysex event that starts with `0xF0`
and fits the 128-byte buffer decode to no event. -/
theorem sysex_not_decoded (d : rtpmidid_t) (port : Nat) (mem : List Nat)
    (p : List midi_message) (body : List Nat) (hmem : mem.length = 128)
    (hp : ∀ m ∈ p, m.channel_voice) (hb : ∀ b ∈ body, b < 256)
    (hlen : (0xF0 :: body).length ≤ 128) :
    recv_rtpmidi_event d port (parse_buffer_t.of_bytes (wire p ++ 0xF0 :: body))
      = ⟨delivered d port (p.map midi_message.event),
          span (wire p ++ [0xF0]) body (wire p ++ 0xF0 :: body).length,
          .not_implemented 0xF0⟩ ∧
    ∃ stream, alsamidi_to_midiprotocol (.SYSEX (0xF0 :: body)) (parse_buffer_t.init mem 128)
        = .ok stream ∧
      stream.written = 0xF0 :: body ∧
      (recv_rtpmidi_event d port (parse_buffer_t.of_bytes stream.written)).self = d ∧
      (recv_rtpmidi_event d port (parse_buffer_t.of_bytes stream.written)).outcome
        = .not_implemented 0xF0 := by
  refine ⟨recv_messages_system d port p hp 0xF0 (by norm_num) (by norm_num) body, ?_⟩
  have hb' : ∀ b ∈ 0xF0 :: body, b < 256 := by
    intro b hbm
    rcases List.mem_cons.1 hbm with rfl | h
    · norm_num
    · exact hb b h
  have henc : alsamidi_to_midiprotocol (.SYSEX (0xF0 :: body)) (parse_buffer_t.init mem 128)
      = .ok (span (0xF0 :: body) (mem.drop (0xF0 :: body).length) 128) := by
    simp only [alsamidi_to_midiprotocol, parse_buffer_t.size, parse_buffer_t.init]
    rw [if_pos hlen]
    have := write_sysex_span (0xF0 :: body) hb' 128 [] mem (by omega) (by simpa using hlen)
    simpa [span] using this
  have hdec := recv_messages_system d port [] (by simp) 0xF0 (by norm_num) (by norm_num) body
  simp only [wire, List.map_nil, List.flatten_nil, List.nil_append, delivered,
    List.foldl_nil] at hdec
  refine ⟨_, henc, written_span _ _ _, ?_, ?_⟩
  · rw [written_span, hdec]
  · rw [written_span, hdec]

/-- A witness of the amended C8: the sysex `F0 01 F7` after a note on. -/
theorem sysex_not_decoded_witness :
    recv_rtpmidi_event (rtpmidid_t.idle "d") 7
        (parse_buffer_t.of_bytes (wire [⟨0x90, [0x40, 0x7F]⟩] ++ 0xF0 :: [0x01, 0xF7]))
      = ⟨delivered (rtpmidid_t.idle "d") 7
            ([⟨0x90, [0x40, 0x7F]⟩].map midi_message.event),
          span (wire [⟨0x90, [0x40, 0x7F]⟩] ++ [0xF0]) [0x01, 0xF7]
            (wire [⟨0x90, [0x40, 0x7F]⟩] ++ 0xF0 :: [0x01, 0xF7]).length,
          .not_implemented 0xF0⟩ ∧
    ∃ stream, alsamidi_to_midiprotocol (.SYSEX (0xF0 :: [0x01, 0xF7]))
        (parse_buffer_t.init (List.replicate 128 0) 128) = .ok stream ∧
      stream.written = 0xF0 :: [0x01, 0xF7] ∧
      (recv_rtpmidi_event (rtpmidid_t.idle "d") 7
        (parse_buffer_t.of_bytes stream.written)).self = rtpmidid_t.idle "d" ∧
      (recv_rtpmidi_event (rtpmidid_t.idle "d") 7
        (parse_buffer_t.of_bytes stream.written)).outcome = .not_implemented 0xF0 :=
  sysex_not_decoded (rtpmidid_t.idle "d") 7 (List.replicate 128 0) [⟨0x90, [0x40, 0x7F]⟩]
    [0x01, 0xF7] (by simp)
    (by simp [midi_message.channel_voice, data_group_for, data_size])
    (by intro b hb; simp at hb; rcases hb with rfl | rfl <;> norm_num)
    (by simp)

/-- C9: sysex overflow is all or nothing. For every sysex event of `len` bytes encoded
into a fresh buffer of capacity `N` (128 in both callers): if `len ≤ N` the encoder
raises no overflow and writes exactly the `len` sysex bytes, in order; if `len > N`
it raises nothing and returns the buffer as it was, contents and cursor unchanged,
so nothing of the sysex is sent. -/
theorem sysex_all_or_nothing (mem : List Nat) (N : Nat) (data : List Nat)
    (hmem : mem.length = N) (hb : ∀ b ∈ data, b < 256) :
    (data.length ≤ N →
      ∃ stream, alsamidi_to_midiprotocol (.SYSEX data) (parse_buffer_t.init mem N)
          = .ok stream ∧
        stream.written = data ∧ stream.position = data.length) ∧
    (N < data.length →
      alsamidi_to_midiprotocol (.SYSEX data) (parse_buffer_t.init mem N)
          = .ok (parse_buffer_t.init mem N) ∧
        (parse_buffer_t.init mem N).written = []) := by
  constructor
  · intro hlen
    have henc : alsamidi_to_midiprotocol (.SYSEX data) (parse_buffer_t.init mem N)
        = .ok (span data (mem.drop data.length) N) := by
      simp only [alsamidi_to_midiprotocol, parse_buffer_t.size, parse_buffer_t.init]
      rw [if_pos hlen]
      have := write_sysex_span data hb N [] mem (by omega) (by simpa using hlen)
      simpa [span] using this
    exact ⟨_, henc, written_span _ _ _, rfl⟩
  · intro hlen
    refine ⟨?_, by simp [parse_buffer_t.written, parse_buffer_t.init]⟩
    simp only [alsamidi_to_midiprotocol, parse_buffer_t.size, parse_buffer_t.init]
    rw [if_neg (by omega)]

/-- A witness of C9: a sysex of three bytes fits a buffer of four, and one of five
bytes is not written at all. -/
theorem sysex_all_or_nothing_witness :
    (∃ stream, alsamidi_to_midiprotocol (.SYSEX [0xF0, 0x01, 0xF7])
        (parse_buffer_t.init [9, 9, 9, 9] 4) = .ok stream ∧
      stream.written = [0xF0, 0x01, 0xF7] ∧ stream.position = 3) ∧
    (alsamidi_to_midiprotocol (.SYSEX [0xF0, 0x01, 0x02, 0x03, 0xF7])
        (parse_buffer_t.init [9, 9, 9, 9] 4) = .ok (parse_buffer_t.init [9, 9, 9, 9] 4) ∧
      (parse_buffer_t.init [9, 9, 9, 9] 4).written = []) :=
  ⟨(sysex_all_or_nothing [9, 9, 9, 9] 4 [0xF0, 0x01, 0xF7] rfl
      (by intro b hb; simp at hb; rcases hb with rfl | rfl | rfl <;> norm_num)).1 (by simp),
    (sysex_all_or_nothing [9, 9, 9, 9] 4 [0xF0, 0x01, 0x02, 0x03, 0xF7] rfl
      (by intro b hb; simp at hb; rcases hb with rfl | rfl | rfl | rfl | rfl <;> norm_num)).2
      (by simp)⟩

/-- C10: truncated payloads. For every payload made of complete channel-voice messages
`p` followed by a channel-voice status byte with fewer data bytes than its type
requires, the decoder delivers exactly the events of `p` and none for the truncated
message, ends by raising the `Underflow` error of the buffer, and its cursor stops at
`end`: no byte at or beyond `end` was read. -/
theorem truncated_payload (d : rtpmidid_t) (port : Nat) (p : List midi_message) (s : Nat)
    (data : List Nat) (hp : ∀ m ∈ p, m.channel_voice) (h0 : 0x80 ≤ s) (h1 : s ≤ 0xEF)
    (hshort : data.length < data_size s) :
    (recv_rtpmidi_event d port (parse_buffer_t.of_bytes (wire p ++ s :: data))).outcome
      = .exception .Underflow ∧
    (recv_rtpmidi_event d port (parse_buffer_t.of_bytes (wire p ++ s :: data))).self.seq.output
      = d.seq.output ++ p.map (fun m => (port, m.event)) ∧
    (recv_rtpmidi_event d port
      (parse_buffer_t.of_bytes (wire p ++ s :: data))).midi_data.position
      = (recv_rtpmidi_event d port
          (parse_buffer_t.of_bytes (wire p ++ s :: data))).midi_data.end_ ∧
    (recv_rtpmidi_event d port (parse_buffer_t.of_bytes (wire p ++ s :: data))).midi_data.end_
      = (wire p ++ s :: data).length := by
  rw [recv_messages_short d port p hp s h0 h1 data hshort]
  refine ⟨rfl, ?_, ?_, rfl⟩
  · rw [delivered_output]; simp
  · simp [span]

/-- The witness of C10: a complete note on, then a note on status and note byte with
no velocity byte. -/
theorem truncated_payload_witness :
    (recv_rtpmidi_event (rtpmidid_t.idle "d") 7
      (parse_buffer_t.of_bytes [0x90, 0x40, 0x7F, 0x90, 0x42])).outcome
      = .exception .Underflow ∧
    (recv_rtpmidi_event (rtpmidid_t.idle "d") 7
      (parse_buffer_t.of_bytes [0x90, 0x40, 0x7F, 0x90, 0x42])).self.seq.output
      = [(7, .NOTEON 0 0x40 0x7F)] := by
  have h := truncated_payload (rtpmidid_t.idle "d") 7 [⟨0x90, [0x40, 0x7F]⟩] 0x90 [0x42]
    (by simp [midi_message.channel_voice, data_group_for, data_size])
    (by norm_num) (by norm_num) (by simp [data_size])
  exact ⟨by simpa [wire, midi_message.bytes] using h.1,
    by simpa [wire, midi_message.bytes, midi_message.event, spec_event, rtpmidid_t.idle]
      using h.2.1⟩

/-! ## Maps -/

theorem mem_keys_erase {κ α : Type} [DecidableEq κ] (m : List (κ × α)) (k x : κ) :
    x ∈ map_keys (map_erase m k) ↔ x ∈ map_keys m ∧ x ≠ k := by
  simp only [map_keys, map_erase, List.mem_map, List.mem_filter]
  constructor
  · rintro ⟨e, ⟨he, hne⟩, rfl⟩
    exact ⟨⟨e, he, rfl⟩, by simpa using hne⟩
  · rintro ⟨⟨e, he, rfl⟩, hne⟩
    exact ⟨e, ⟨he, by simpa using hne⟩, rfl⟩

theorem mem_keys_assign {κ α : Type} [DecidableEq κ] (m : List (κ × α)) (k x : κ) (v : α) :
    x ∈ map_keys (map_assign m k v) ↔ x = k ∨ (x ∈ map_keys m ∧ x ≠ k) := by
  have h := mem_keys_erase m k x
  simp only [map_keys] at h
  simp only [map_assign, map_keys, List.map_cons, List.mem_cons, h]

/-! ## Discovery of clients -/

/-- A discovery whose address and port are already known changes nothing and returns
no port. -/
theorem add_known_client (self : rtpmidid_t) (name address : String) (net_port id : Nat)
    (h : ∃ known ∈ self.known_clients, known.2.address = address ∧ known.2.port = net_port) :
    self.add_rtpmidi_client name address net_port id = (self, none) := by
  have hany : self.known_clients.any
      (fun known => known.2.address = address ∧ known.2.port = net_port) = true := by
    obtain ⟨known, hk, ha, hp⟩ := h
    rw [List.any_eq_true]
    exact ⟨known, hk, by simp [ha, hp]⟩
  simp only [rtpmidid_t.add_rtpmidi_client, hany, if_true]

/-- After a discovery the address and port are known. -/
theorem known_after_add (self : rtpmidid_t) (name address : String) (net_port id : Nat) :
    ∃ known ∈ (self.add_rtpmidi_client name address net_port id).1.known_clients,
      known.2.address = address ∧ known.2.port = net_port := by
  by_cases hany : self.known_clients.any
      (fun known => known.2.address = address ∧ known.2.port = net_port) = true
  · simp only [rtpmidid_t.add_rtpmidi_client, hany, if_true]
    rw [List.any_eq_true] at hany
    obtain ⟨known, hk, hp⟩ := hany
    exact ⟨known, hk, by simpa using hp⟩
  · simp only [rtpmidid_t.add_rtpmidi_client, hany]
    exact ⟨(id, ⟨name, address, net_port, 0, none⟩), by simp [map_assign], rfl, rfl⟩

/-- C11: duplicate discovery is idempotent. If `known_clients` already holds an entry
with the same address and port, `add_rtpmidi_client` returns no port and leaves the
daemon as it was, whatever the name: no virtual port is created and `known_clients`
is unchanged. Hence a second call with the same address and port changes nothing
after a first one, and from a state that does not know the address and port the
two calls leave exactly one entry for them and one new virtual port. -/
theorem add_rtpmidi_client_idempotent (self : rtpmidid_t) (name address : String)
    (net_port id : Nat) :
    ((∃ known ∈ self.known_clients, known.2.address = address ∧ known.2.port = net_port) →
      ∀ name2, self.add_rtpmidi_client name2 address net_port id = (self, none)) ∧
    (∀ name2 id2,
      (self.add_rtpmidi_client name address net_port id).1.add_rtpmidi_client
          name2 address net_port id2
        = ((self.add_rtpmidi_client name address net_port id).1, none)) ∧
    ((¬ ∃ known ∈ self.known_clients, known.2.address = address ∧ known.2.port = net_port) →
      ((self.add_rtpmidi_client name address net_port id).1.known_clients.filter
          (fun known => known.2.address = address ∧ known.2.port = net_port)).length = 1 ∧
      (self.add_rtpmidi_client name address net_port id).1.seq.ports
        = id :: self.seq.ports) := by
  refine ⟨fun h name2 => add_known_client self name2 address net_port id h,
    fun name2 id2 => add_known_client _ name2 address net_port id2
      (known_after_add self name address net_port id), ?_⟩
  intro hnot
  have hany : ¬ (self.known_clients.any
      (fun known => known.2.address = address ∧ known.2.port = net_port) = true) := by
    rw [List.any_eq_true]
    rintro ⟨known, hk, hp⟩
    exact hnot ⟨known, hk, by simpa using hp⟩
  have hfalse : self.known_clients.any
      (fun known => known.2.address = address ∧ known.2.port = net_port) = false := by
    simpa using hany
  simp only [rtpmidid_t.add_rtpmidi_client, hfalse, Bool.false_eq_true, if_false]
  refine ⟨?_, rfl⟩
  have hnone : (map_erase self.known_clients id).filter
      (fun known => known.2.address = address ∧ known.2.port = net_port) = [] := by
    rw [List.filter_eq_nil_iff]
    intro known hk hp
    have hk' : known ∈ self.known_clients := (List.mem_filter.1 hk).1
    exact hnot ⟨known, hk', by simpa using hp⟩
  rw [map_assign, List.filter_cons, hnone]
  simp

/-- The scenario of C11: mDNS announces `("foo", "10.0.0.1", 5004)` twice, the second
time under another name. -/
theorem add_rtpmidi_client_idempotent_witness :
    ((rtpmidid_t.idle "d").add_rtpmidi_client "foo" "10.0.0.1" 5004 1).1.add_rtpmidi_client
        "bar" "10.0.0.1" 5004 2
      = (((rtpmidid_t.idle "d").add_rtpmidi_client "foo" "10.0.0.1" 5004 1).1, none) ∧
    (((rtpmidid_t.idle "d").add_rtpmidi_client "foo" "10.0.0.1" 5004 1).1.known_clients.filter
        (fun known => known.2.address = "10.0.0.1" ∧ known.2.port = 5004)).length = 1 ∧
    ((rtpmidid_t.idle "d").add_rtpmidi_client "foo" "10.0.0.1" 5004 1).1.seq.ports
      = 1 :: (rtpmidid_t.idle "d").seq.ports :=
  ⟨(add_rtpmidi_client_idempotent (rtpmidid_t.idle "d") "foo" "10.0.0.1" 5004 1).2.1 "bar" 2,
    (add_rtpmidi_client_idempotent (rtpmidid_t.idle "d") "foo" "10.0.0.1" 5004 1).2.2
      (by simp [rtpmidid_t.idle])⟩

/-- C12 fails on the code: `use_count++` stands inside the branch `if (!peer_info->peer)`,
so only the first subscription is counted. After two subscriptions to the port of a
discovered client `use_count` is 1, and after one unsubscription it is 0 and the
peer is dropped, although one subscriber remains. -/
theorem use_count_counts_first_subscription_only :
    ((((rtpmidid_t.idle "d").add_rtpmidi_client "foo" "10.0.0.1" 5004 1).1.client_on_subscribe
        1 "a").client_on_subscribe 1 "b").known_client 1
      = ⟨"foo", "10.0.0.1", 5004, 1, some ⟨"a", "10.0.0.1", 5004⟩⟩ ∧
    (((((rtpmidid_t.idle "d").add_rtpmidi_client "foo" "10.0.0.1" 5004 1).1.client_on_subscribe
        1 "a").client_on_subscribe 1 "b").client_on_unsubscribe 1).known_client 1
      = ⟨"foo", "10.0.0.1", 5004, 0, none⟩ := by
  decide

/-- C13 fails on the code: a target of two fields `a:b` is read as address `a` and port
`std::stoi(b)`, not as name `a` and address `b` on port 5004. The target
`piano:10.0.0.1` adds a client named `piano` to the address `piano` on port 10, and
the target `piano:myhost` ends the constructor with `std::invalid_argument`. The
forms `host` and `name:host:port` are read as documented. -/
theorem two_field_target_is_address_and_port :
    ((rtpmidid_t.idle "d").connect_to_target "piano:10.0.0.1" 1).map
        (fun d => d.known_clients)
      = .ok [(1, ⟨"piano", "piano", 10, 0, none⟩)] ∧
    (rtpmidid_t.idle "d").connect_to_target "piano:myhost" 1
      = .error .stoi_invalid_argument ∧
    ((rtpmidid_t.idle "d").connect_to_target "10.0.0.1" 1).map (fun d => d.known_clients)
      = .ok [(1, ⟨"10.0.0.1", "10.0.0.1", 5004, 0, none⟩)] ∧
    ((rtpmidid_t.idle "d").connect_to_target "piano:10.0.0.1:5006" 1).map
        (fun d => d.known_clients)
      = .ok [(1, ⟨"piano", "10.0.0.1", 5006, 0, none⟩)] := by
  decide

/-! ## Startup: the connect-to targets -/

theorem digit_code (c : Char) (h : c.isDigit = true) : 48 ≤ c.toNat ∧ c.toNat ≤ 57 := by
  simp only [Char.isDigit, Bool.and_eq_true, decide_eq_true_eq] at h
  obtain ⟨h1, h2⟩ := h
  rw [ge_iff_le, UInt32.le_def] at h1
  rw [UInt32.le_def] at h2
  exact ⟨h1, h2⟩

/-- On a decimal numeral that fits an `int`, `std::stoi` returns its value. -/
theorem stoi_numeric (p : String) (h : numeric_port p) :
    stoi p = .ok (digits_value p.data) := by
  obtain ⟨hne, hdig, hval⟩ := h
  obtain ⟨c, cs, hp⟩ : ∃ c cs, p.data = c :: cs := by
    cases hd : p.data with
    | nil => exact (hne hd).elim
    | cons c cs => exact ⟨c, cs, rfl⟩
  have hc := digit_code c (hdig c (by rw [hp]; simp))
  have hsp : is_space c = false := by
    have h32 : c ≠ ' ' := by
      intro he
      rw [he] at hc
      exact absurd hc.1 (by decide)
    simp only [is_space, h32, decide_False, Bool.false_or, Bool.and_eq_false_iff,
      decide_eq_false_iff_not]
    omega
  have hminus : c ≠ '-' := by
    intro he
    rw [he] at hc
    exact absurd hc.1 (by decide)
  have hplus : c ≠ '+' := by
    intro he
    rw [he] at hc
    exact absurd hc.1 (by decide)
  have hdrop : p.data.dropWhile is_space = p.data := by
    rw [hp, List.dropWhile_cons, hsp]
    simp
  have htake : p.data.takeWhile Char.isDigit = p.data :=
    List.takeWhile_eq_self_iff.2 hdig
  have hhead : p.data.head? = some c := by rw [hp]; rfl
  have hv : ¬ ((digits_value p.data : Int) < -2147483648 ∨
      2147483647 < (digits_value p.data : Int)) := by
    omega
  simp only [stoi, hdrop, hhead, Option.some.injEq, hminus, hplus, or_self, if_false, htake,
    hne, decide_False, Bool.false_eq_true, hv]

/-- A target whose number of fields is not 1, 2 or 3 raises the exception of the last
branch. -/
theorem connect_to_target_invalid (self : rtpmidid_t) (connect_to : String) (id : Nat)
    (h1 : (split connect_to ':').length ≠ 1) (h2 : (split connect_to ':').length ≠ 2)
    (h3 : (split connect_to ':').length ≠ 3) :
    self.connect_to_target connect_to id = .error .invalid_remote_address := by
  unfold rtpmidid_t.connect_to_target
  generalize split connect_to ':' = fields at h1 h2 h3
  match fields, h1, h2, h3 with
  | [], _, _, _ => rfl
  | [_], h1, _, _ => exact (h1 rfl).elim
  | [_, _], _, h2, _ => exact (h2 rfl).elim
  | [_, _, _], _, _, h3 => exact (h3 rfl).elim
  | _ :: _ :: _ :: _ :: _, _, _, _ => rfl

theorem connect_to_all_invalid (create_port_id : rtpmidid_t → Nat) (targets : List String)
    (h : ∃ t ∈ targets, (split t ':').length ≠ 1 ∧ (split t ':').length ≠ 2 ∧
      (split t ':').length ≠ 3) :
    ∀ self, ∃ e, rtpmidid_t.connect_to_all create_port_id self targets = .error e := by
  induction targets with
  | nil =>
    obtain ⟨t, ht, _⟩ := h
    simp at ht
  | cons t0 rest ih =>
    intro self
    obtain ⟨t, ht, h1, h2, h3⟩ := h
    rw [rtpmidid_t.connect_to_all]
    cases hres : self.connect_to_target t0 (create_port_id self) with
    | error e => exact ⟨e, rfl⟩
    | ok d =>
      rcases List.mem_cons.1 ht with rfl | hrest
      · rw [connect_to_target_invalid self t _ h1 h2 h3] at hres
        cases hres
      · exact ih ⟨t, hrest, h1, h2, h3⟩ d

/-- A configuration with a connect-to string whose number of fields is not 1, 2 or 3
ends the constructor with an exception. -/
theorem construct_invalid_field_count (config : config_t) (client_id : Nat)
    (create_port_id : rtpmidid_t → Nat)
    (h : ∃ t ∈ config.connect_to, (split t ':').length ≠ 1 ∧ (split t ':').length ≠ 2 ∧
      (split t ':').length ≠ 3) :
    ∃ e, rtpmidid_t.construct config client_id create_port_id = .error e :=
  connect_to_all_invalid create_port_id config.connect_to h _

/-- C14 fails on the code: the connect-to string `piano:myhost` splits on ':' into two
fields, the documented form `name:host`, which has no port field, and yet the
constructor of `rtpmidid_t` ends with an exception on it: the branch for two fields
passes the second field to `std::stoi`, which raises `std::invalid_argument` on
`myhost`. The same string with a port, `piano:myhost:5004`, and the single field
`myhost` let the constructor complete. -/
theorem two_field_host_target_is_fatal (client_id : Nat)
    (create_port_id : rtpmidid_t → Nat) :
    (split "piano:myhost" ':').length = 2 ∧
    rtpmidid_t.construct ⟨"d", [5004], ["piano:myhost"]⟩ client_id create_port_id
      = .error .stoi_invalid_argument ∧
    (∃ d, rtpmidid_t.construct ⟨"d", [5004], ["piano:myhost:5004"]⟩ client_id create_port_id
      = .ok d) ∧
    (∃ d, rtpmidid_t.construct ⟨"d", [5004], ["myhost"]⟩ client_id create_port_id
      = .ok d) :=
  ⟨by decide, rfl, ⟨_, rfl⟩, ⟨_, rfl⟩⟩

/-- C15: every AppleMIDI command code is the big-endian 16-bit value of its two ASCII
letters, `256 * first letter + second letter`: IN = 0x494E, OK = 0x4F4B, NO = 0x4E4F,
BY = 0x4259, CK = 0x434B, RS = 0x5253; and the six codes are pairwise distinct. -/
theorem command_codes_are_their_letters :
    (∀ c : commands_e, c.value = 256 * c.letters.1.toNat + c.letters.2.toNat) ∧
    [commands_e.IN, .OK, .NO, .BY, .CK, .RS].map commands_e.value
      = [0x494E, 0x4F4B, 0x4E4F, 0x4259, 0x434B, 0x5253] ∧
    (∀ a b : commands_e, a.value = b.value → a = b) := by
  refine ⟨?_, rfl, ?_⟩
  · intro c
    cases c <;> decide
  · intro a b
    cases a <;> cases b <;> decide

/-! ## The registry tables -/

/-- What holds of the tables along every run: the keys of `known_clients` and of
`known_servers_connections` are ports in use, no port is a key of both, and the keys
of `alsa_to_server` are addresses in other clients than the daemon's own. -/
theorem tables_step (self : rtpmidid_t) (ev : registry_event)
    (hc : ∀ p ∈ map_keys self.known_clients, p ∈ self.seq.ports)
    (hs : ∀ p ∈ map_keys self.known_servers_connections, p ∈ self.seq.ports)
    (hd : ∀ p ∈ map_keys self.known_clients, p ∉ map_keys self.known_servers_connections)
    (ha : ∀ k ∈ map_keys self.alsa_to_server, k.client ≠ self.seq.client_id)
    (hallow : self.allows ev) (hforeign : self.foreign_subscriber ev) :
    (∀ p ∈ map_keys (self.handle ev).known_clients, p ∈ (self.handle ev).seq.ports) ∧
    (∀ p ∈ map_keys (self.handle ev).known_servers_connections,
      p ∈ (self.handle ev).seq.ports) ∧
    (∀ p ∈ map_keys (self.handle ev).known_clients,
      p ∉ map_keys (self.handle ev).known_servers_connections) ∧
    (∀ k ∈ map_keys (self.handle ev).alsa_to_server,
      k.client ≠ (self.handle ev).seq.client_id) := by
  cases ev with
  | add_client name address net_port id =>
    have hfresh : id ∉ self.seq.ports := hallow
    simp only [rtpmidid_t.handle, rtpmidid_t.add_rtpmidi_client]
    split
    · exact ⟨hc, hs, hd, ha⟩
    · refine ⟨?_, ?_, ?_, ha⟩
      · intro p hp
        rcases (mem_keys_assign _ _ _ _).1 hp with rfl | ⟨hp, _⟩
        · simp [aseq.create_port]
        · simp [aseq.create_port, hc p hp]
      · intro p hp
        simp [aseq.create_port, hs p hp]
      · intro p hp
        rcases (mem_keys_assign _ _ _ _).1 hp with rfl | ⟨hp, _⟩
        · exact fun h => hfresh (hs _ h)
        · exact hd p hp
  | remove_client port =>
    simp only [rtpmidid_t.handle, rtpmidid_t.remove_client]
    refine ⟨?_, hs, ?_, ha⟩
    · intro p hp
      exact hc p ((mem_keys_erase _ _ _).1 hp).1
    · intro p hp
      exact hd p ((mem_keys_erase _ _ _).1 hp).1
  | connected server remote_name id =>
    have hfresh : id ∉ self.seq.ports := hallow
    simp only [rtpmidid_t.handle, rtpmidid_t.import_on_connected, Bool.false_eq_true,
      if_false]
    refine ⟨?_, ?_, ?_, ha⟩
    · intro p hp
      simp [aseq.create_port, hc p hp]
    · intro p hp
      rcases (mem_keys_assign _ _ _ _).1 hp with rfl | ⟨hp, _⟩
      · simp [aseq.create_port]
      · simp [aseq.create_port, hs p hp]
    · intro p hp hq
      rcases (mem_keys_assign _ _ _ _).1 hq with rfl | ⟨hq, _⟩
      · exact hfresh (hc _ hp)
      · exact hd p hp hq
  | disconnect aseq_port =>
    have hlive : aseq_port ∈ map_keys self.known_servers_connections := hallow
    simp only [rtpmidid_t.handle, rtpmidid_t.import_on_disconnect]
    refine ⟨?_, ?_, ?_, ha⟩
    · intro p hp
      have hne : p ≠ aseq_port := fun h => hd p hp (h ▸ hlive)
      simp [aseq.remove_port, hc p hp, hne]
    · intro p hp
      obtain ⟨hp, hne⟩ := (mem_keys_erase _ _ _).1 hp
      simp [aseq.remove_port, hs p hp, hne]
    · intro p hp hq
      exact hd p hp ((mem_keys_erase _ _ _).1 hq).1
  | subscribe alsaport from_ name =>
    have hfor : from_.client ≠ self.seq.client_id := hforeign
    simp only [rtpmidid_t.handle, rtpmidid_t.network_on_subscribe,
      rtpmidid_t.add_rtpmidid_export_server]
    refine ⟨hc, hs, hd, ?_⟩
    intro k hk
    rcases (mem_keys_assign _ _ _ _).1 hk with rfl | ⟨hk, _⟩
    · exact hfor
    · exact ha k hk
  | unsubscribe from_ =>
    simp only [rtpmidid_t.handle, rtpmidid_t.export_on_unsubscribe]
    refine ⟨hc, hs, hd, ?_⟩
    intro k hk
    exact ha k ((mem_keys_erase _ _ _).1 hk).1

theorem tables_run (events : List registry_event) :
    ∀ self : rtpmidid_t,
      (∀ p ∈ map_keys self.known_clients, p ∈ self.seq.ports) →
      (∀ p ∈ map_keys self.known_servers_connections, p ∈ self.seq.ports) →
      (∀ p ∈ map_keys self.known_clients, p ∉ map_keys self.known_servers_connections) →
      (∀ k ∈ map_keys self.alsa_to_server, k.client ≠ self.seq.client_id) →
      rtpmidid_t.all_along rtpmidid_t.allows self events →
      rtpmidid_t.all_along rtpmidid_t.foreign_subscriber self events →
      (∀ p ∈ map_keys (self.run events).known_clients,
        p ∉ map_keys (self.run events).known_servers_connections) ∧
      (∀ k ∈ map_keys (self.run events).alsa_to_server,
        k.client ≠ (self.run events).seq.client_id) := by
  induction events with
  | nil =>
    intro self _ _ hd ha _ _
    exact ⟨hd, ha⟩
  | cons ev events ih =>
    intro self hc hs hd ha hallow hforeign
    obtain ⟨hc', hs', hd', ha'⟩ := tables_step self ev hc hs hd ha hallow.1 hforeign.1
    exact ih (self.handle ev) hc' hs' hd' ha' hallow.2 hforeign.2

/-- C16, as the claim states it, fails: after `add_rtpmidi_client` made the virtual
port 1, a subscription to the "Network" port that comes from this very port makes
its address a key of `alsa_to_server` while 1 is a key of `known_clients`; every
`create_port` returned a port not in use. -/
theorem own_port_in_two_tables :
    rtpmidid_t.all_along rtpmidid_t.allows (rtpmidid_t.idle "d")
      [.add_client "foo" "10.0.0.1" 5004 1, .subscribe 0 ⟨128, 1⟩ "foo"] ∧
    ((rtpmidid_t.idle "d").run
      [.add_client "foo" "10.0.0.1" 5004 1, .subscribe 0 ⟨128, 1⟩ "foo"]).tables_with 1
      = 2 := by
  refine ⟨⟨?_, trivial, trivial⟩, by decide⟩
  show 1 ∉ (rtpmidid_t.idle "d").seq.ports
  decide

/-- C16, amended: in every registry state reached from empty tables through
`add_rtpmidi_client`, `remove_client`, the connect and disconnect callbacks of
the import servers and the subscribe and unsubscribe callbacks of the export servers,
no local virtual port is a key of more than one of `known_clients`,
`known_servers_connections` and `alsa_to_server`, provided `create_port` never
returns a port id in use, a disconnect callback runs only for a live connection,
and no subscriber of the "Network" port is a port of the daemon's own client. -/
theorem tables_disjoint (self : rtpmidid_t) (events : List registry_event)
    (hc : self.known_clients = []) (hs : self.known_servers_connections = [])
    (ha : self.alsa_to_server = [])
    (hallow : rtpmidid_t.all_along rtpmidid_t.allows self events)
    (hforeign : rtpmidid_t.all_along rtpmidid_t.foreign_subscriber self events) :
    ∀ p, (self.run events).tables_with p ≤ 1 := by
  obtain ⟨hd, hk⟩ := tables_run events self (by simp [hc, map_keys]) (by simp [hs, map_keys])
    (by simp [hc, map_keys]) (by simp [ha, map_keys]) hallow hforeign
  intro p
  have h3 : (⟨(self.run events).seq.client_id, p⟩ : port_t)
      ∉ map_keys (self.run events).alsa_to_server := fun h => hk _ h rfl
  unfold rtpmidid_t.tables_with
  rw [if_neg h3]
  by_cases h1 : p ∈ map_keys (self.run events).known_clients
  · rw [if_pos h1, if_neg (hd p h1)]
  · rw [if_neg h1]
    split <;> omega

/-- A witness of the amended C16: a client is discovered on port 1, a peer connects
to an import server on port 2 and disconnects, a second client gets the port 2, and
a port of another sequencer client subscribes to the "Network" port. -/
theorem tables_disjoint_witness :
    ((rtpmidid_t.idle "d").run
      [.add_client "foo" "10.0.0.1" 5004 1, .connected ⟨"d", 5004⟩ "peer" 2,
        .disconnect 2, .add_client "bar" "10.0.0.2" 5004 2,
        .subscribe 0 ⟨20, 1⟩ "synth"]).tables_with 1 ≤ 1 ∧
    ((rtpmidid_t.idle "d").run
      [.add_client "foo" "10.0.0.1" 5004 1, .connected ⟨"d", 5004⟩ "peer" 2,
        .disconnect 2, .add_client "bar" "10.0.0.2" 5004 2,
        .subscribe 0 ⟨20, 1⟩ "synth"]).tables_with 2 ≤ 1 := by
  have h := tables_disjoint (rtpmidid_t.idle "d")
    [.add_client "foo" "10.0.0.1" 5004 1, .connected ⟨"d", 5004⟩ "peer" 2,
      .disconnect 2, .add_client "bar" "10.0.0.2" 5004 2, .subscribe 0 ⟨20, 1⟩ "synth"]
    rfl rfl rfl
    (by
      refine ⟨?_, ?_, ?_, ?_, trivial, trivial⟩
      · show 1 ∉ (rtpmidid_t.idle "d").seq.ports
        decide
      · show 2 ∉ _
        decide
      · show 2 ∈ _
        decide
      · show 2 ∉ _
        decide)
    (by
      refine ⟨trivial, trivial, trivial, trivial, ?_, trivial⟩
      show (20 : Nat) ≠ _
      decide)
  exact ⟨h 1, h 2⟩

/-! ## The decoder from one iteration to the next -/

/-- Without a status byte before it, a data byte at the head of the payload makes the
decoder return at once: the current command is still 0, its type 0 has no case. -/
theorem loop_no_status (port fuel : Nat) (d : rtpmidid_t) (b : Nat) (hb : b < 0x80)
    (pre rest : List Nat) (N : Nat) (hN : pre.length < N) :
    recv_rtpmidi_event_loop port (fuel + 1) 0 d (span pre (b :: rest) N)
      = ⟨d, span pre (b :: rest) N, .not_implemented 0⟩ := by
  have h80 : ¬ (b &&& 0x80 ≠ 0) := by
    rw [byte_and_80 b (by omega)]; omega
  rw [recv_rtpmidi_event_loop]
  simp only [span_position, span_end, hN, if_true, read_span pre _ b N hN, h80, if_false,
    step_back_span]
  simp [recv_rtpmidi_event_switch]

/-- C17: running status never crosses payloads. The current status of the decoder
starts empty on every call: for every payload whose first byte has its high bit
clear the decoder delivers no event, leaves the daemon and the cursor as they were
and returns through the `default` case, whatever payload was decoded before. -/
theorem status_starts_empty (d : rtpmidid_t) (port b : Nat) (r : List Nat) (hb : b < 0x80) :
    recv_rtpmidi_event d port (parse_buffer_t.of_bytes (b :: r))
      = ⟨d, parse_buffer_t.of_bytes (b :: r), .not_implemented 0⟩ ∧
    ∀ prior : List Nat,
      recv_rtpmidi_event (recv_rtpmidi_event d port (parse_buffer_t.of_bytes prior)).self port
          (parse_buffer_t.of_bytes (b :: r))
        = ⟨(recv_rtpmidi_event d port (parse_buffer_t.of_bytes prior)).self,
            parse_buffer_t.of_bytes (b :: r), .not_implemented 0⟩ := by
  have key : ∀ d0 : rtpmidid_t,
      recv_rtpmidi_event d0 port (parse_buffer_t.of_bytes (b :: r))
        = ⟨d0, parse_buffer_t.of_bytes (b :: r), .not_implemented 0⟩ := by
    intro d0
    rw [recv_eq_loop, List.length_cons, loop_no_status port _ d0 b hb [] r _ (by simp)]
    rfl
  exact ⟨key d, fun prior => key _⟩

/-- The witness of C17: after the payload `0x90 40 7F` the payload `42 7F` delivers
nothing, the note on of the first payload is not carried over. -/
theorem status_starts_empty_witness :
    (recv_rtpmidi_event
        (recv_rtpmidi_event (rtpmidid_t.idle "d") 7
          (parse_buffer_t.of_bytes [0x90, 0x40, 0x7F])).self 7
        (parse_buffer_t.of_bytes [0x42, 0x7F])).self.seq.output
      = [(7, .NOTEON 0 0x40 0x7F)] ∧
    (recv_rtpmidi_event
        (recv_rtpmidi_event (rtpmidid_t.idle "d") 7
          (parse_buffer_t.of_bytes [0x90, 0x40, 0x7F])).self 7
        (parse_buffer_t.of_bytes [0x42, 0x7F])).outcome = .not_implemented 0 := by
  have h := (status_starts_empty (rtpmidid_t.idle "d") 7 0x42 [0x7F] (by norm_num)).2
    [0x90, 0x40, 0x7F]
  rw [h]
  exact ⟨by decide, rfl⟩

/-- No value of `current_command & 0xF0` is `0xFE`: the active-sensing case of the
switch is never taken. -/
theorem and_F0_ne_FE (x : Nat) : x &&& 0xF0 ≠ 0xFE := by
  intro h
  have h1 : (x &&& 0xF0).testBit 1 = false := by
    have h0 : Nat.testBit 0xF0 1 = false := by decide
    rw [Nat.testBit_and, h0, Bool.and_false]
  have h2 : Nat.testBit 0xFE 1 = true := by decide
  rw [h, h2] at h1
  cases h1

theorem progress_one (md : parse_buffer_t) (f : Nat → snd_seq_event_t) :
    makes_progress md (with_uint8 md (fun v after => .deliver (f v) after)) := by
  unfold with_uint8 parse_buffer_t.read_uint8
  split
  · next h =>
      split at h
      · cases h; rfl
      · cases h
  · next h =>
      split at h
      · cases h
      · next hle =>
          cases h
          exact ⟨by show md.position < md.position + 1; omega,
            by show md.position + 1 ≤ md.end_; omega, rfl⟩

theorem progress_two (md : parse_buffer_t) (f : Nat → Nat → snd_seq_event_t) :
    makes_progress md
      (with_uint8 md (fun a md1 => with_uint8 md1 (fun b after => .deliver (f a b) after))) := by
  unfold with_uint8 parse_buffer_t.read_uint8
  split
  · next h =>
      split at h
      · cases h; rfl
      · cases h
  · next h =>
      split at h
      · cases h
      · next hle =>
          cases h
          dsimp only
          split
          · next h2 =>
              split at h2
              · cases h2; rfl
              · cases h2
          · next h2 =>
              split at h2
              · cases h2
              · next hle2 =>
                  cases h2
                  exact ⟨by show md.position < md.position + 1 + 1; omega,
                    by show md.position + 1 + 1 ≤ md.end_; omega, rfl⟩

/-- Every pass through the switch makes progress, whatever the status. -/
theorem switch_progress (type cc : Nat) (md : parse_buffer_t) (h : type ≠ 0xFE) :
    makes_progress md (recv_rtpmidi_event_switch type cc md) := by
  unfold recv_rtpmidi_event_switch
  split
  · exact progress_two md (fun a b => .CONTROLLER (cc &&& 0x0F) a b)
  split
  · exact progress_two md (fun a b => .NOTEON (cc &&& 0x0F) a b)
  split
  · exact progress_two md (fun a b => .NOTEOFF (cc &&& 0x0F) a b)
  split
  · exact progress_two md (fun a b => .KEYPRESS (cc &&& 0x0F) a b)
  split
  · exact progress_one md (fun a => .PGMCHANGE (cc &&& 0x0F) a)
  split
  · exact progress_one md (fun a => .CHANPRESS (cc &&& 0x0F) a)
  split
  · exact progress_two md
      (fun lsb msb => .PITCHBEND (cc &&& 0x0F) ((((msb <<< 7) + lsb : Nat) : Int) - 8192))
  trivial

theorem read_in_range (md : parse_buffer_t) (h : md.position < md.end_) :
    md.read_uint8
      = .ok (md.data.getD md.position 0, { md with position := md.position + 1 }) := by
  have h1 : ¬ (md.position + 1 > md.end_) := by omega
  simp only [parse_buffer_t.read_uint8, h1, if_false]

/-- One iteration of the loop with bytes left: it returns through the `default` case,
or raises `Underflow`, or delivers one event and goes round with the cursor strictly
further, not beyond `end`. -/
theorem loop_iteration (port cc : Nat) (d : rtpmidid_t) (md : parse_buffer_t)
    (h : md.position < md.end_) :
    (∃ t after, ∀ fuel, recv_rtpmidi_event_loop port (fuel + 1) cc d md
        = ⟨d, after, .not_implemented t⟩) ∨
    (∃ after, ∀ fuel, recv_rtpmidi_event_loop port (fuel + 1) cc d md
        = ⟨d, after, .exception .Underflow⟩) ∨
    (∃ cc' ev after, md.position < after.position ∧ after.position ≤ md.end_ ∧
      after.end_ = md.end_ ∧
      ∀ fuel, recv_rtpmidi_event_loop port (fuel + 1) cc d md
        = recv_rtpmidi_event_loop port fuel cc' (d.event_output_direct port ev) after) := by
  have hread := read_in_range md h
  by_cases hv : md.data.getD md.position 0 &&& 0x80 ≠ 0
  · have hp := switch_progress (md.data.getD md.position 0 &&& 0xF0)
      (md.data.getD md.position 0) { md with position := md.position + 1 }
      (and_F0_ne_FE _)
    cases hsw : recv_rtpmidi_event_switch (md.data.getD md.position 0 &&& 0xF0)
        (md.data.getD md.position 0) { md with position := md.position + 1 } with
    | returned =>
      refine Or.inl ⟨md.data.getD md.position 0 &&& 0xF0,
        { md with position := md.position + 1 }, fun fuel => ?_⟩
      rw [recv_rtpmidi_event_loop]
      simp only [h, if_true, hread, hv, ne_eq, not_false_eq_true, hsw]
    | threw e after =>
      rw [hsw] at hp
      have he : e = .Underflow := hp
      subst he
      refine Or.inr (Or.inl ⟨after, fun fuel => ?_⟩)
      rw [recv_rtpmidi_event_loop]
      simp only [h, if_true, hread, hv, ne_eq, not_false_eq_true, hsw]
    | deliver ev after =>
      rw [hsw] at hp
      obtain ⟨h1, h2, h3⟩ := hp
      refine Or.inr (Or.inr ⟨md.data.getD md.position 0, ev, after, ?_, h2, h3, fun fuel => ?_⟩)
      · have : md.position + 1 < after.position := h1
        omega
      · rw [recv_rtpmidi_event_loop]
        simp only [h, if_true, hread, hv, ne_eq, not_false_eq_true, hsw]
  · have hv0 : md.data.getD md.position 0 &&& 0x80 = 0 := by simpa using hv
    have hp := switch_progress (cc &&& 0xF0) cc
      ({ md with position := md.position + 1 } : parse_buffer_t).step_back (and_F0_ne_FE _)
    cases hsw : recv_rtpmidi_event_switch (cc &&& 0xF0) cc
        ({ md with position := md.position + 1 } : parse_buffer_t).step_back with
    | returned =>
      refine Or.inl ⟨cc &&& 0xF0,
        ({ md with position := md.position + 1 } : parse_buffer_t).step_back, fun fuel => ?_⟩
      rw [recv_rtpmidi_event_loop]
      simp only [h, if_true, hread, hv0, ne_eq, not_true_eq_false, if_false, hsw]
    | threw e after =>
      rw [hsw] at hp
      have he : e = .Underflow := hp
      subst he
      refine Or.inr (Or.inl ⟨after, fun fuel => ?_⟩)
      rw [recv_rtpmidi_event_loop]
      simp only [h, if_true, hread, hv0, ne_eq, not_true_eq_false, if_false, hsw]
    | deliver ev after =>
      rw [hsw] at hp
      obtain ⟨h1, h2, h3⟩ := hp
      refine Or.inr (Or.inr ⟨cc, ev, after, ?_, h2, h3, fun fuel => ?_⟩)
      · have : md.position + 1 - 1 < after.position := h1
        omega
      · rw [recv_rtpmidi_event_loop]
        simp only [h, if_true, hread, hv0, ne_eq, not_true_eq_false, if_false, hsw]

/-- The loop never runs out of iterations when it starts with at least as many as
bytes are left, and it delivers at most one event a byte. -/
theorem loop_terminates (port : Nat) :
    ∀ (fuel cc : Nat) (d : rtpmidid_t) (md : parse_buffer_t), md.end_ - md.position ≤ fuel →
      (recv_rtpmidi_event_loop port fuel cc d md).outcome ≠ .out_of_fuel ∧
      (recv_rtpmidi_event_loop port fuel cc d md).self.seq.output.length
        ≤ d.seq.output.length + (md.end_ - md.position) := by
  intro fuel
  induction fuel with
  | zero =>
    intro cc d md hf
    have h : ¬ (md.position < md.end_) := by omega
    simp [recv_rtpmidi_event_loop, h]
  | succ fuel ih =>
    intro cc d md hf
    by_cases h : md.position < md.end_
    · rcases loop_iteration port cc d md h with ⟨t, after, heq⟩ | ⟨after, heq⟩ |
        ⟨cc', ev, after, h1, h2, h3, heq⟩
      · rw [heq fuel]
        exact ⟨by simp, by simp⟩
      · rw [heq fuel]
        exact ⟨by simp, by simp⟩
      · rw [heq fuel]
        obtain ⟨ho, hl⟩ := ih cc' (d.event_output_direct port ev) after (by omega)
        refine ⟨ho, ?_⟩
        have hlen : (d.event_output_direct port ev).seq.output.length
            = d.seq.output.length + 1 := by
          simp [rtpmidid_t.event_output_direct]
        omega
    · simp [recv_rtpmidi_event_loop, h]

/-- C18: the decode loop terminates on every finite payload. Each iteration that
starts with bytes left either returns (the `default` case), raises the `Underflow`
error, or delivers one event and ends with the cursor strictly greater than at its
start and not beyond `end`; hence the decoder always comes to an end and the number
of events it delivers is at most the number of bytes of the payload. -/
theorem decode_loop_terminates (d : rtpmidid_t) (port cc : Nat) (midi_data : parse_buffer_t) :
    (midi_data.position < midi_data.end_ →
      (∃ t after, ∀ fuel, recv_rtpmidi_event_loop port (fuel + 1) cc d midi_data
          = ⟨d, after, .not_implemented t⟩) ∨
      (∃ after, ∀ fuel, recv_rtpmidi_event_loop port (fuel + 1) cc d midi_data
          = ⟨d, after, .exception .Underflow⟩) ∨
      (∃ cc' ev after, midi_data.position < after.position ∧
        after.position ≤ midi_data.end_ ∧ after.end_ = midi_data.end_ ∧
        ∀ fuel, recv_rtpmidi_event_loop port (fuel + 1) cc d midi_data
          = recv_rtpmidi_event_loop port fuel cc' (d.event_output_direct port ev) after)) ∧
    (recv_rtpmidi_event d port midi_data).outcome ≠ .out_of_fuel ∧
    (recv_rtpmidi_event d port midi_data).self.seq.output.length
      ≤ d.seq.output.length + (midi_data.end_ - midi_data.position) :=
  ⟨loop_iteration port cc d midi_data,
    loop_terminates port _ 0 d midi_data (le_refl _)⟩

/-- A witness of C18: on the five bytes `0x90 40 7F 42 7F` the decoder comes to an end
and delivers at most five events, and its first iteration is one of the three
kinds. -/
theorem decode_loop_terminates_witness :
    (recv_rtpmidi_event (rtpmidid_t.idle "d") 7
      (parse_buffer_t.of_bytes [0x90, 0x40, 0x7F, 0x42, 0x7F])).outcome ≠ .out_of_fuel ∧
    (recv_rtpmidi_event (rtpmidid_t.idle "d") 7
      (parse_buffer_t.of_bytes [0x90, 0x40, 0x7F, 0x42, 0x7F])).self.seq.output.length
      ≤ (rtpmidid_t.idle "d").seq.output.length + (5 - 0) ∧
    ((∃ t after, ∀ fuel, recv_rtpmidi_event_loop 7 (fuel + 1) 0 (rtpmidid_t.idle "d")
          (parse_buffer_t.of_bytes [0x90, 0x40, 0x7F, 0x42, 0x7F])
          = ⟨rtpmidid_t.idle "d", after, .not_implemented t⟩) ∨
      (∃ after, ∀ fuel, recv_rtpmidi_event_loop 7 (fuel + 1) 0 (rtpmidid_t.idle "d")
          (parse_buffer_t.of_bytes [0x90, 0x40, 0x7F, 0x42, 0x7F])
          = ⟨rtpmidid_t.idle "d", after, .exception .Underflow⟩) ∨
      (∃ cc' ev after,
        (parse_buffer_t.of_bytes [0x90, 0x40, 0x7F, 0x42, 0x7F]).position < after.position ∧
        after.position ≤ (parse_buffer_t.of_bytes [0x90, 0x40, 0x7F, 0x42, 0x7F]).end_ ∧
        after.end_ = (parse_buffer_t.of_bytes [0x90, 0x40, 0x7F, 0x42, 0x7F]).end_ ∧
        ∀ fuel, recv_rtpmidi_event_loop 7 (fuel + 1) 0 (rtpmidid_t.idle "d")
            (parse_buffer_t.of_bytes [0x90, 0x40, 0x7F, 0x42, 0x7F])
          = recv_rtpmidi_event_loop 7 fuel cc'
              ((rtpmidid_t.idle "d").event_output_direct 7 ev) after)) :=
  ⟨(decode_loop_terminates (rtpmidid_t.idle "d") 7 0
      (parse_buffer_t.of_bytes [0x90, 0x40, 0x7F, 0x42, 0x7F])).2.1,
    (decode_loop_terminates (rtpmidid_t.idle "d") 7 0
      (parse_buffer_t.of_bytes [0x90, 0x40, 0x7F, 0x42, 0x7F])).2.2,
    (decode_loop_terminates (rtpmidid_t.idle "d") 7 0
      (parse_buffer_t.of_bytes [0x90, 0x40, 0x7F, 0x42, 0x7F])).1 (by decide)⟩

/-! ## The encoder on arbitrary field values -/

theorem and_0F (c : Nat) : c &&& 0x0F = c % 16 :=
  Nat.and_pow_two_sub_one_eq_mod c 4

theorem status_byte (t c : Nat) (ht : t < 16) :
    ((t * 16) ||| (c &&& 0x0F)) % 256 = t * 16 + c % 16 := by
  have hc : c % 16 < 16 := Nat.mod_lt _ (by norm_num)
  rw [and_0F, nibble_or t ht (c % 16) hc]
  exact Nat.mod_eq_of_lt (by omega)

theorem to_uint8_land_FF (v : Int) : to_uint8 (Int.land v 0x0FF) = to_uint8 v := by
  rw [int_land_FF]
  unfold to_uint8
  rw [Int.emod_emod_of_dvd v (dvd_refl _)]

/-- What the encoder writes for a channel-voice event with field values of any size:
the status byte of the type with the channel modulo 16, then the data fields as
bytes. -/
theorem encode_any (mem : List Nat) (N : Nat) (hN : 3 ≤ N) (hmem : N ≤ mem.length)
    (e : snd_seq_event_t) (he : channel_voice_any e) :
    alsamidi_to_midiprotocol e (parse_buffer_t.init mem N)
      = .ok (span (status_byte_of e :: data_bytes_of e)
          (mem.drop (status_byte_of e :: data_bytes_of e).length) N) := by
  cases e with
  | NOTEON c n v =>
    simp only [alsamidi_to_midiprotocol]
    rw [write_three mem N _ _ _ hN hmem, status_byte 9 c (by decide)]
    rfl
  | NOTEOFF c n v =>
    simp only [alsamidi_to_midiprotocol]
    rw [write_three mem N _ _ _ hN hmem, status_byte 8 c (by decide)]
    rfl
  | KEYPRESS c n v =>
    simp only [alsamidi_to_midiprotocol]
    rw [write_three mem N _ _ _ hN hmem, status_byte 10 c (by decide)]
    rfl
  | CONTROLLER c q v =>
    simp only [alsamidi_to_midiprotocol]
    rw [write_three mem N _ _ _ hN hmem, status_byte 11 c (by decide), to_uint8_mod]
    rfl
  | PGMCHANGE c v =>
    have hc : c < 16 := he
    simp only [alsamidi_to_midiprotocol]
    rw [write_two mem N _ _ (by omega) hmem, nibble_or 12 (by decide) c hc,
      Nat.mod_eq_of_lt (by omega : 12 * 16 + c < 256), to_uint8_land_FF, to_uint8_mod]
    simp only [status_byte_of, data_bytes_of, Nat.mod_eq_of_lt hc]
    rfl
  | CHANPRESS c v =>
    have hc : c < 16 := he
    simp only [alsamidi_to_midiprotocol]
    rw [write_two mem N _ _ (by omega) hmem, nibble_or 13 (by decide) c hc,
      Nat.mod_eq_of_lt (by omega : 13 * 16 + c < 256), to_uint8_land_FF, to_uint8_mod]
    simp only [status_byte_of, data_bytes_of, Nat.mod_eq_of_lt hc]
    rfl
  | PITCHBEND c v =>
    simp only [alsamidi_to_midiprotocol]
    rw [write_three mem N _ _ _ hN hmem, status_byte 14 c (by decide), int_land_7F,
      int_land_7F, Int.shiftRight_eq_div_pow, to_uint8_mod, to_uint8_mod, to_uint8_mod_128,
      to_uint8_mod_128]
    rfl
  | SENSING => exact he.elim
  | SYSEX d => exact he.elim
  | OTHER t => exact he.elim

/-- C19, as the claim states it, fails: for a note on with note number 200, which an
8-bit field can hold, the encoder writes the byte 200 after the status byte, and 200
is not below 0x80. -/
theorem data_byte_not_masked :
    ∃ stream, alsamidi_to_midiprotocol (.NOTEON 0 200 100)
        (parse_buffer_t.init (List.replicate 128 0) 128) = .ok stream ∧
      stream.written = [0x90, 200, 100] ∧ ¬ ∀ b ∈ stream.written.tail, b < 0x80 := by
  refine ⟨_, encode_any (List.replicate 128 0) 128 (by norm_num) (by simp) (.NOTEON 0 200 100)
    trivial, ?_, ?_⟩
  · rw [written_span]; rfl
  · rw [written_span]; decide

/-- C19, amended: for every channel-voice event with field values of any size, the
channel of a program change or channel pressure being in 0..15, the encoder raises
nothing; the first byte it writes has its high bit set, the upper nibble of the
type of the event and the channel modulo 16 as lower nibble; the bytes after it are
the data fields modulo 256, below 0x80 exactly when the fields modulo 256 are; and
the two data bytes of a pitch bend are below 0x80 for every value. For active
sensing the encoder writes the single byte 0xFE. -/
theorem encoder_status_and_data (mem : List Nat) (e : snd_seq_event_t)
    (hmem : mem.length = 128) (he : channel_voice_any e) :
    (∃ stream, alsamidi_to_midiprotocol e (parse_buffer_t.init mem 128) = .ok stream ∧
      stream.written = status_byte_of e :: data_bytes_of e) ∧
    0x80 ≤ status_byte_of e ∧ status_byte_of e ≤ 0xEF ∧
    (∀ b ∈ data_bytes_of e, b < 256) ∧
    (∀ c v, e = .PITCHBEND c v → ∀ b ∈ data_bytes_of e, b < 0x80) ∧
    (∃ stream, alsamidi_to_midiprotocol .SENSING (parse_buffer_t.init mem 128) = .ok stream ∧
      stream.written = [0xFE]) := by
  refine ⟨⟨_, encode_any mem 128 (by norm_num) (by omega) e he, written_span _ _ _⟩,
    ?_, ?_, ?_, ?_, ?_⟩
  · cases e <;> first | exact he.elim | (simp only [status_byte_of]; omega)
  · cases e <;> first | exact he.elim | (simp only [status_byte_of]; omega)
  · intro b hb
    cases e with
    | NOTEON c n v =>
      simp only [data_bytes_of, List.mem_cons, List.mem_singleton, List.not_mem_nil,
        or_false] at hb
      rcases hb with rfl | rfl <;> omega
    | NOTEOFF c n v =>
      simp only [data_bytes_of, List.mem_cons, List.mem_singleton, List.not_mem_nil,
        or_false] at hb
      rcases hb with rfl | rfl <;> omega
    | KEYPRESS c n v =>
      simp only [data_bytes_of, List.mem_cons, List.mem_singleton, List.not_mem_nil,
        or_false] at hb
      rcases hb with rfl | rfl <;> omega
    | CONTROLLER c q v =>
      simp only [data_bytes_of, List.mem_cons, List.mem_singleton, List.not_mem_nil,
        or_false] at hb
      rcases hb with rfl | rfl
      · omega
      · exact to_uint8_lt v
    | PGMCHANGE c v =>
      simp only [data_bytes_of, List.mem_singleton] at hb
      rw [hb]; exact to_uint8_lt v
    | CHANPRESS c v =>
      simp only [data_bytes_of, List.mem_singleton] at hb
      rw [hb]; exact to_uint8_lt v
    | PITCHBEND c v =>
      simp only [data_bytes_of, List.mem_cons, List.mem_singleton, List.not_mem_nil,
        or_false] at hb
      rcases hb with rfl | rfl <;> omega
    | SENSING => exact he.elim
    | SYSEX d => exact he.elim
    | OTHER t => exact he.elim
  · intro c v hev b hb
    subst hev
    simp only [data_bytes_of, List.mem_cons, List.mem_singleton, List.not_mem_nil,
      or_false] at hb
    rcases hb with rfl | rfl <;> omega
  · obtain ⟨m0, r0, rfl, _⟩ := exists_cons_of_length (n := 0) (by omega : 0 + 1 ≤ mem.length)
    refine ⟨span [0xFE] r0 128, ?_, ?_⟩
    · simp only [alsamidi_to_midiprotocol]
      rw [init_eq_span, write_span [] r0 m0 0xFE 128 (by simp)]
      rfl
    · rw [written_span]

/-- A witness of the amended C19: a control change on channel 0x25 with controller
number 300 and value -1 is written as `0xB5`, 300 mod 256 = 44, 255. -/
theorem encoder_status_and_data_witness :
    ∃ stream, alsamidi_to_midiprotocol (.CONTROLLER 0x25 300 (-1))
        (parse_buffer_t.init (List.replicate 128 0) 128) = .ok stream ∧
      stream.written = [0xB5, 44, 255] := by
  obtain ⟨stream, h1, h2⟩ := (encoder_status_and_data (List.replicate 128 0)
    (.CONTROLLER 0x25 300 (-1)) (by simp) trivial).1
  exact ⟨stream, h1, by rw [h2]; decide⟩

/-- C20 fails on the code: when `maybe_end` is longer than `str`, the unsigned
difference of the lengths wraps around to a value above the length of `str`; it is
never below 0, so the guard `if (pos < 0)` does not return false, and
`std::equal` starts at `begin(str) + pos`, outside `str`. -/
theorem endswith_longer_reads_outside (str maybe_end : String)
    (hlonger : str.length < maybe_end.length) (hsize : maybe_end.length < 2 ^ 64) :
    endswith str maybe_end = .out_of_bounds := by
  have h64 : (2 : Nat) ^ 64 = 18446744073709551616 := by norm_num
  rw [h64] at hsize
  have hpos : (str.length + 18446744073709551616 - maybe_end.length) % 18446744073709551616
      = str.length + 18446744073709551616 - maybe_end.length :=
    Nat.mod_eq_of_lt (by omega)
  have hgt : ¬ (str.length + 18446744073709551616 - maybe_end.length ≤ str.length) := by
    omega
  simp only [endswith, h64, hpos, Nat.not_lt_zero, if_false, hgt]

/-- The failing input of C20: `endswith("a", "ba")`. -/
theorem endswith_longer_reads_outside_witness : endswith "a" "ba" = .out_of_bounds :=
  endswith_longer_reads_outside "a" "ba" (by decide) (by decide)

end rtpmidid
